import Mathlib

/-!
Verification of the Flix-Flow recommendation core: a shallow embedding of
`backend/app/ranker.py`, the scoring logic of the three engines in
`backend/app/engines/`, and the routing logic of `backend/app/orchestrator.py`.

Modelling conventions:
* Python floats are modelled as rationals (`ℚ`); the verified claims are
  algebraic and do not depend on floating-point rounding.
* Python dicts are modelled as insertion-ordered association lists
  (`List (Int × ℚ)`): inserting an existing key overwrites its value in
  place, a new key is appended.
* Python's stable `list.sort(key=..., reverse=True)` is modelled by a
  stable insertion sort (`stableSortBy`) whose comparator `le a b` states
  that `a` may be placed before `b`; ties keep the original order.
* Each engine's database/model reads are external collaborators, so the
  record lists they would produce are taken as inputs; everything computed
  from those lists inside the repository is embedded faithfully.
* Each candidate dict carries one raw-score field selected per source by
  the `score_key` argument (`predicted_rating`, `score`, `weighted_rating`);
  the embedding calls that field `score` on `ScoredRec`.
-/

namespace FlixFlow

/-- A scored candidate dict as built by the engines and consumed by
`Ranker.merge_and_rank`: `score` is the value of the raw-score field that
`score_key` selects for the record's source. -/
structure ScoredRec where
  movieId : Int
  tmdbId : Option Int := none
  title : String := ""
  genres : String := ""
  score : ℚ := 0
  source : String := ""
deriving Repr, DecidableEq, Inhabited

/-- An entry of the merged hybrid ranking, as built in
`Ranker.merge_and_rank` (`movie_details[movie_id] = {...}`). -/
structure CombinedRec where
  movieId : Int
  tmdbId : Option Int := none
  title : String := ""
  genres : String := ""
  combined_score : ℚ := 0
  source : String := ""
deriving Repr, DecidableEq, Inhabited

/-- A row of the `movies` table as read by `StatisticalEngine.get_trending`. -/
structure MovieRow where
  movieId : Int
  tmdbId : Option Int := none
  title : String := ""
  genres : String := ""
  avg_rating : ℚ := 0
  vote_count : Nat := 0
deriving Repr, DecidableEq, Inhabited

/-- A result dict of `StatisticalEngine.get_trending`. -/
structure SRec where
  movieId : Int
  tmdbId : Option Int := none
  title : String := ""
  genres : String := ""
  avg_rating : ℚ := 0
  vote_count : Nat := 0
  weighted_rating : ℚ := 0
  source : String := ""
deriving Repr, DecidableEq, Inhabited

/-- An aggregated dict of `ContentEngine.find_similar_to_user_preferences`:
the spread `{**movie, "score": ..., "count": ...}` keeps the
`similarity_score` of the first occurrence while `score` and `count`
accumulate over further occurrences. -/
structure ContentRec where
  movieId : Int
  tmdbId : Option Int := none
  title : String := ""
  genres : String := ""
  similarity_score : ℚ := 0
  score : ℚ := 0
  count : Nat := 0
  source : String := ""
deriving Repr, DecidableEq, Inhabited

/-! ### Python dict as insertion-ordered association list -/

/-- Insert key `k` with value `v` into a Python-dict-like association list:
an existing key keeps its position and gets the new value, a new key is
appended at the end. -/
def dictInsert (d : List (Int × ℚ)) (k : Int) (v : ℚ) : List (Int × ℚ) :=
  if d.any (fun p => p.1 = k) then
    d.map (fun p => if p.1 = k then (k, v) else p)
  else d ++ [(k, v)]

/-- Build the dict `{r["movieId"]: f r for r in recs}` (also the result of
the equivalent assignment loop), left to right with overwrite. -/
def buildDict (f : ScoredRec → ℚ) (recs : List ScoredRec) : List (Int × ℚ) :=
  recs.foldl (fun d r => dictInsert d r.movieId (f r)) []

/-- Dict access `d[m]` / membership `m in d`: the value at the (unique)
key `m`, when present. -/
def dictLookup : List (Int × ℚ) → Int → Option ℚ
  | [], _ => none
  | (k, v) :: rest, m => if k = m then some v else dictLookup rest m

/-- The scan `for rec in all_recs: if rec["movieId"] == movie_id: ...
break`: the first record with the given movieId. -/
def findFirst : List ScoredRec → Int → Option ScoredRec
  | [], _ => none
  | x :: xs, m => if x.movieId = m then some x else findFirst xs m

/-! ### Stable descending insertion sort, modelling `sorted(..., reverse=True)` -/

/-- Insert `x` into `l` in front of the first element `y` with `le x y`;
used with `le a b` meaning key of `a` is at least key of `b`, this keeps
the originally earlier element first on ties. -/
def insertLeBy {α : Type} (le : α → α → Bool) (x : α) : List α → List α
  | [] => [x]
  | y :: ys => if le x y then x :: y :: ys else y :: insertLeBy le x ys

/-- Stable sort by comparator `le` (a Bool total preorder); with a
descending key comparator this is Python's `sorted(key=..., reverse=True)`. -/
def stableSortBy {α : Type} (le : α → α → Bool) : List α → List α
  | [] => []
  | x :: xs => insertLeBy le x (stableSortBy le xs)

/-- Comparator for the merged ranking: descending by `combined_score`. -/
def combinedLe (a b : CombinedRec) : Bool := decide (b.combined_score ≤ a.combined_score)

/-- Comparator for collaborative predictions: descending by
`predicted_rating` (the `score` field of the collaborative dicts). -/
def scoredLe (a b : ScoredRec) : Bool := decide (b.score ≤ a.score)

/-- Comparator for statistical results: descending by `weighted_rating`. -/
def statLe (a b : SRec) : Bool := decide (b.weighted_rating ≤ a.weighted_rating)

/-- Comparator for aggregated content results: descending by the tuple
`(count, score)` in lexicographic order, as in
`recommendations.sort(key=lambda x: (x["count"], x["score"]), reverse=True)`. -/
def contentLe (a b : ContentRec) : Bool :=
  decide (b.count < a.count ∨ (a.count = b.count ∧ b.score ≤ a.score))

/-! ### Ranker (`backend/app/ranker.py`) -/

/-- Python's `min(scores)` for the (nonempty) score list of `recs`. -/
def minScoreOf : List ScoredRec → ℚ
  | [] => 0
  | r :: rs => (rs.map (fun x => x.score)).foldl min r.score

/-- Python's `max(scores)` for the (nonempty) score list of `recs`. -/
def maxScoreOf : List ScoredRec → ℚ
  | [] => 0
  | r :: rs => (rs.map (fun x => x.score)).foldl max r.score

/-- `Ranker.normalize_scores`: min-max scaling of the raw scores onto
[0,1], returned as the dict `movieId → normalized score`; an empty input
yields the empty dict, and when `max_score == min_score` every candidate
maps to `1.0`. -/
def Ranker.normalize_scores (recs : List ScoredRec) : List (Int × ℚ) :=
  match recs with
  | [] => []
  | r :: rs =>
    let min_score := minScoreOf (r :: rs)
    let max_score := maxScoreOf (r :: rs)
    if max_score = min_score then
      buildDict (fun _ => 1) (r :: rs)
    else
      buildDict (fun x => (x.score - min_score) / (max_score - min_score)) (r :: rs)

/-- The weighted contribution of one normalized source dict to a movie's
combined score: `if movie_id in normalized: score += normalized[movie_id] * weight`. -/
def contribOf (d : List (Int × ℚ)) (w : ℚ) (m : Int) : ℚ :=
  match dictLookup d m with
  | some v => v * w
  | none => 0

/-- The combined score of `movie_id`, accumulated from `0.0` over the
three normalized dicts as in the body of the `for movie_id in all_movie_ids`
loop. -/
def combineFor (cN oN sN : List (Int × ℚ)) (w1 w2 w3 : ℚ) (m : Int) : ℚ :=
  0 + contribOf cN w1 m + contribOf oN w2 m + contribOf sN w3 m

/-- The union `all_movie_ids` of the keys of the three normalized dicts.
Python iterates a `set` in an unspecified order; the embedding fixes the
deterministic order given by `List.dedup` of the concatenated key lists
(no verified claim depends on this order). -/
def allMovieIds (cN oN sN : List (Int × ℚ)) : List Int :=
  (cN.map Prod.fst ++ oN.map Prod.fst ++ sN.map Prod.fst).dedup

/-- The body of `Ranker.merge_and_rank` after the weight assertion:
normalize each source, union the movie ids, combine scores, resolve the
display metadata from the first match in `collab_recs + content_recs +
stats_recs`, and sort descending by `combined_score`. -/
def mergeCore (collab_recs content_recs stats_recs : List ScoredRec)
    (w1 w2 w3 : ℚ) : List CombinedRec :=
  let collab_normalized := Ranker.normalize_scores collab_recs
  let content_normalized := Ranker.normalize_scores content_recs
  let stats_normalized := Ranker.normalize_scores stats_recs
  let ids := allMovieIds collab_normalized content_normalized stats_normalized
  let details := ids.filterMap (fun m =>
    (findFirst (collab_recs ++ content_recs ++ stats_recs) m).map
      (fun x =>
        ({ movieId := m, tmdbId := x.tmdbId, title := x.title, genres := x.genres,
           combined_score :=
             combineFor collab_normalized content_normalized stats_normalized w1 w2 w3 m,
           source := "hybrid_weighted" } : CombinedRec)))
  stableSortBy combinedLe details

/-- `Ranker.merge_and_rank`: the `assert abs(sum(weights) - 1.0) < 0.01`
is modelled as an `Except.error` (a raised `AssertionError`); the weights
are the triple `[collab_weight, content_weight, stats_weight]`. -/
def Ranker.merge_and_rank (collab_recs content_recs stats_recs : List ScoredRec)
    (w1 w2 w3 : ℚ) : Except String (List CombinedRec) :=
  if |w1 + w2 + w3 - 1| < 1 / 100 then
    .ok (mergeCore collab_recs content_recs stats_recs w1 w2 w3)
  else
    .error "Weights must sum to 1.0"

/-! ### Diversity reranker (`Ranker.rerank_with_diversity`) -/

/-- Python's `str.split("|")` on the underlying character list: the
pieces between pipe characters, in order; the empty string splits to one
empty piece, so the result is never the empty list. -/
def splitPipe : List Char → List (List Char)
  | [] => [[]]
  | c :: rest =>
    match splitPipe rest with
    | [] => [[c]]
    | h :: t => if c = '|' then [] :: h :: t else (c :: h) :: t

/-- The genre set `set(rec["genres"].split("|"))` of a genres string. -/
def genreSetOf (g : String) : Finset String :=
  ((splitPipe g.toList).map (fun l => String.mk l)).toFinset

/-- The adjusted score of one candidate inside the selection loop:
the base `combined_score` plus, when the candidate still has unseen
genres, the boost `diversity_factor * len(new_genres) / len(genres)`. -/
def adjScore (d : ℚ) (seen : Finset String) (r : CombinedRec) : ℚ :=
  let genres := genreSetOf r.genres
  let new_genres := genres \ seen
  if new_genres.Nonempty then
    r.combined_score + d * (new_genres.card : ℚ) / (genres.card : ℚ)
  else
    r.combined_score

/-- The `for i, rec in enumerate(remaining)` scan: starting from
`best_score = -1`, `best_idx = 0`, replace the champion whenever the
current score is strictly greater. -/
def pickBestAux : List ℚ → ℚ → Nat → Nat → ℚ × Nat
  | [], best, bestIdx, _ => (best, bestIdx)
  | s :: rest, best, bestIdx, i =>
    if best < s then pickBestAux rest s i (i + 1)
    else pickBestAux rest best bestIdx (i + 1)

/-- Result `(best_score, best_idx)` of one full scan of `remaining`. -/
def pickBest (scores : List ℚ) : ℚ × Nat := pickBestAux scores (-1) 0 0

/-- The `while remaining:` loop of `Ranker.rerank_with_diversity`, with an
explicit fuel equal to the initial length (each iteration removes exactly
one element, so the fuel is never exhausted early). -/
def rerankGo (d : ℚ) : Nat → Finset String → List CombinedRec → List CombinedRec
  | 0, _, _ => []
  | _ + 1, _, [] => []
  | fuel + 1, seen, r :: rs =>
    let remaining := r :: rs
    let j := (pickBest (remaining.map (adjScore d seen))).2
    let chosen := remaining.getD j r
    chosen :: rerankGo d fuel (seen ∪ genreSetOf chosen.genres) (remaining.eraseIdx j)

/-- `Ranker.rerank_with_diversity`: greedy genre-diversity reordering. -/
def Ranker.rerank_with_diversity (recommendations : List CombinedRec)
    (diversity_factor : ℚ) : List CombinedRec :=
  rerankGo diversity_factor recommendations.length ∅ recommendations

/-! ### Engines (`backend/app/engines/`) -/

/-- A hero dict: one top candidate from one engine together with the
`confidence` value that `get_hero_movie` adds to it. -/
inductive Hero where
  | collab (r : ScoredRec) (confidence : ℚ)
  | content (c : ContentRec) (confidence : ℚ)
  | stat (s : SRec) (confidence : ℚ)
deriving Repr, DecidableEq

/-- The `movieId` of a hero dict. -/
def Hero.movieId : Hero → Int
  | .collab r _ => r.movieId
  | .content c _ => c.movieId
  | .stat s _ => s.movieId

/-- `CollaborativeEngine.predict_for_user`: the SVD predictions for the
user's unrated movies (built from the external model and movie table, so
taken as the input `predictions`) are sorted descending by
`predicted_rating` and truncated to `top_n`. -/
def CollaborativeEngine.predict_for_user (predictions : List ScoredRec)
    (top_n : Nat) : List ScoredRec :=
  (stableSortBy scoredLe predictions).take top_n

/-- `CollaborativeEngine.get_hero_movie`: the top-1 prediction with
`confidence = min(predicted_rating / 5.0, 1.0)`, or `none` when there is
no prediction. -/
def CollaborativeEngine.get_hero_movie (predictions : List ScoredRec) : Option Hero :=
  match CollaborativeEngine.predict_for_user predictions 1 with
  | [] => none
  | h :: _ => some (.collab h (min (h.score / 5) 1))

/-- `StatisticalEngine.weighted_rating`: the Bayesian weighted rating
`WR = (v / (v + m)) * R + (m / (v + m)) * C`. -/
def StatisticalEngine.weighted_rating (avg_rating : ℚ) (vote_count : Nat)
    (C : ℚ) (m : Nat) : ℚ :=
  ((vote_count : ℚ) / ((vote_count : ℚ) + (m : ℚ))) * avg_rating
    + ((m : ℚ) / ((vote_count : ℚ) + (m : ℚ))) * C

/-- The `results` list of `StatisticalEngine.get_trending`: the movies
with `vote_count >= m`, each scored with the weighted rating using the
(cached) global mean `C`. -/
def statResults (movies : List MovieRow) (C : ℚ) (min_votes : Nat) : List SRec :=
  (movies.filter (fun mv => min_votes ≤ mv.vote_count)).map
    (fun mv =>
      ({ movieId := mv.movieId, tmdbId := mv.tmdbId, title := mv.title,
         genres := mv.genres, avg_rating := mv.avg_rating,
         vote_count := mv.vote_count,
         weighted_rating :=
           StatisticalEngine.weighted_rating mv.avg_rating mv.vote_count C min_votes,
         source := "statistical_bayesian" } : SRec))

/-- `StatisticalEngine.get_trending` (without a time window): sort the
`results` descending by `weighted_rating` and truncate to `top_n`. -/
def StatisticalEngine.get_trending (movies : List MovieRow) (C : ℚ)
    (min_votes : Nat) (top_n : Nat) : List SRec :=
  (stableSortBy statLe (statResults movies C min_votes)).take top_n

/-- `StatisticalEngine.get_hero_movie`: the top-1 trending movie with
`confidence = min(weighted_rating / 5.0, 1.0)`, or `none` when the
trending list is empty. -/
def StatisticalEngine.get_hero_movie (movies : List MovieRow) (C : ℚ)
    (min_votes : Nat) : Option Hero :=
  match StatisticalEngine.get_trending movies C min_votes 1 with
  | [] => none
  | h :: _ => some (.stat h (min (h.weighted_rating / 5) 1))

/-- `ContentEngine.find_similar_to_user_preferences`: the aggregation of
the per-liked-movie similarity queries (external vector index, so the
aggregated dict values are taken as the input `aggregated`) is sorted
descending by `(count, score)` and truncated to `top_n`. -/
def ContentEngine.find_similar_to_user_preferences (aggregated : List ContentRec)
    (top_n : Nat) : List ContentRec :=
  (stableSortBy contentLe aggregated).take top_n

/-- `ContentEngine.get_hero_movie`: the top-1 aggregated recommendation
with `confidence = hero["similarity_score"]` taken directly, or `none`
when there is no recommendation. -/
def ContentEngine.get_hero_movie (aggregated : List ContentRec) : Option Hero :=
  match ContentEngine.find_similar_to_user_preferences aggregated 1 with
  | [] => none
  | h :: _ => some (.content h h.similarity_score)

/-! ### Orchestrator (`backend/app/orchestrator.py`) -/

/-- One movie list of a response section; the four paths put four
different dict shapes into `"movies"`. -/
inductive MovieList where
  | scored : List ScoredRec → MovieList
  | contentRecs : List ContentRec → MovieList
  | statRecs : List SRec → MovieList
  | combined : List CombinedRec → MovieList
deriving Repr, DecidableEq

/-- One section dict of a response. -/
structure RecSection where
  title : String
  description : String
  movies : MovieList
  source : String
deriving Repr, DecidableEq

/-- The response dict of `RecommendationOrchestrator.get_recommendations`. -/
structure RecResult where
  strategy : String
  is_new_user : Bool
  hero : Option Hero
  sections : List RecSection
deriving Repr, DecidableEq

/-- The external reads of one request: the user's rating count, the SVD
predictions, the aggregated content-similarity dicts, the movie table
rows, and the cached global-mean rating `C`. -/
structure Env where
  ratingCount : Nat
  collabPreds : List ScoredRec
  contentAgg : List ContentRec
  statsMovies : List MovieRow
  globalMean : ℚ
deriving Repr, DecidableEq

/-- `RecommendationOrchestrator.is_new_user`: fewer than 5 ratings. -/
def Orchestrator.is_new_user (env : Env) : Bool := env.ratingCount < 5

/-- Project an aggregated content dict to the fields that
`Ranker.merge_and_rank` reads from it (`"score"` is its raw-score field). -/
def ContentRec.toScored (c : ContentRec) : ScoredRec :=
  { movieId := c.movieId, tmdbId := c.tmdbId, title := c.title,
    genres := c.genres, score := c.score, source := c.source }

/-- Project a trending dict to the fields that `Ranker.merge_and_rank`
reads from it (`"weighted_rating"` is its raw-score field). -/
def SRec.toScored (s : SRec) : ScoredRec :=
  { movieId := s.movieId, tmdbId := s.tmdbId, title := s.title,
    genres := s.genres, score := s.weighted_rating, source := s.source }

/-- `RecommendationOrchestrator._handle_new_user`: the cold-start
response built from the statistical engine (`min_votes = 50`). -/
def Orchestrator.handle_new_user (env : Env) (top_n : Nat) : RecResult :=
  { strategy := "statistical", is_new_user := true,
    hero := StatisticalEngine.get_hero_movie env.statsMovies env.globalMean 50,
    sections := [
      { title := "Trending & Highly Rated",
        description := "Popular movies with excellent ratings",
        movies := .statRecs
          (StatisticalEngine.get_trending env.statsMovies env.globalMean 50 top_n),
        source := "statistical" }] }

/-- `RecommendationOrchestrator._collaborative_only`. -/
def Orchestrator.collaborative_only (env : Env) (top_n : Nat) : RecResult :=
  { strategy := "collaborative", is_new_user := false,
    hero := CollaborativeEngine.get_hero_movie env.collabPreds,
    sections := [
      { title := "Personalized Picks",
        description := "Based on your rating history",
        movies := .scored (CollaborativeEngine.predict_for_user env.collabPreds top_n),
        source := "collaborative" }] }

/-- `RecommendationOrchestrator._content_only`. -/
def Orchestrator.content_only (env : Env) (top_n : Nat) : RecResult :=
  { strategy := "content", is_new_user := false,
    hero := ContentEngine.get_hero_movie env.contentAgg,
    sections := [
      { title := "Similar to Movies You Loved",
        description := "Based on content similarity",
        movies := .contentRecs
          (ContentEngine.find_similar_to_user_preferences env.contentAgg top_n),
        source := "content" }] }

/-- `RecommendationOrchestrator._statistical_only`. -/
def Orchestrator.statistical_only (env : Env) (top_n : Nat) : RecResult :=
  { strategy := "statistical", is_new_user := false,
    hero := StatisticalEngine.get_hero_movie env.statsMovies env.globalMean 50,
    sections := [
      { title := "Top Rated Movies",
        description := "Highest quality by statistical significance",
        movies := .statRecs
          (StatisticalEngine.get_trending env.statsMovies env.globalMean 50 top_n),
        source := "statistical" }] }

/-- `RecommendationOrchestrator._hybrid_recommendations`: fan out to the
three engines, merge with the configured hybrid weights (the code passes
the literal `[0.5, 0.3, 0.2]` at its call site; the weights are exposed
here as the configuration value they stand for), take the collaborative
hero, and assemble the three fixed sections. -/
def Orchestrator.hybrid_recommendations (env : Env) (top_n : Nat)
    (w1 w2 w3 : ℚ) : Except String RecResult :=
  (Ranker.merge_and_rank
      (CollaborativeEngine.predict_for_user env.collabPreds top_n)
      ((ContentEngine.find_similar_to_user_preferences env.contentAgg top_n).map
        ContentRec.toScored)
      ((StatisticalEngine.get_trending env.statsMovies env.globalMean 50 top_n).map
        SRec.toScored) w1 w2 w3).map (fun hybrid_recs =>
    { strategy := "hybrid", is_new_user := false,
      hero := CollaborativeEngine.get_hero_movie env.collabPreds,
      sections := [
        { title := "Personalized for You",
          description := "Hybrid recommendations combining all signals",
          movies := .combined (hybrid_recs.take top_n),
          source := "hybrid" },
        { title := "Similar to Your Favorites",
          description := "Based on content you enjoyed",
          movies := .contentRecs
            ((ContentEngine.find_similar_to_user_preferences env.contentAgg top_n).take
              top_n),
          source := "content" },
        { title := "Trending Now",
          description := "Popular and highly rated",
          movies := .statRecs
            ((StatisticalEngine.get_trending env.statsMovies env.globalMean 50
              top_n).take top_n),
          source := "statistical" }] })

/-- `RecommendationOrchestrator.get_recommendations`: cold-start check
first, then the exact-match strategy dispatch with `hybrid` as the
catch-all `else`. -/
def Orchestrator.get_recommendations (env : Env) (strategy : String)
    (top_n : Nat) (w1 w2 w3 : ℚ) : Except String RecResult :=
  if Orchestrator.is_new_user env then
    .ok (Orchestrator.handle_new_user env top_n)
  else if strategy = "collaborative" then
    .ok (Orchestrator.collaborative_only env top_n)
  else if strategy = "content" then
    .ok (Orchestrator.content_only env top_n)
  else if strategy = "statistical" then
    .ok (Orchestrator.statistical_only env top_n)
  else
    Orchestrator.hybrid_recommendations env top_n w1 w2 w3

/-- The merged `combined_score` of `movie_id` as a function of the three
`(source list, weight)` inputs of the merge. -/
def mergeScore (c o s : List ScoredRec) (w1 w2 w3 : ℚ) (m : Int) : ℚ :=
  combineFor (Ranker.normalize_scores c) (Ranker.normalize_scores o)
    (Ranker.normalize_scores s) w1 w2 w3 m

/-- The same combined score written as a sum over an unordered list of
`(source list, weight)` pairs; used to state that the score treats the
three sources symmetrically. -/
def pairScore (ps : List (List ScoredRec × ℚ)) (m : Int) : ℚ :=
  (ps.map (fun p => contribOf (Ranker.normalize_scores p.1) p.2 m)).sum

/-- The `movieId` of the first movie of the first section, when that
section carries the merged hybrid list. -/
def RecResult.firstHybridMovieId (res : RecResult) : Option Int :=
  match res.sections with
  | { movies := .combined (r :: _), .. } :: _ => some r.movieId
  | _ => none

/-! ### Concrete inputs used to exercise the definitions -/

/-- A one-candidate collaborative list used in concrete merge checks. -/
def mdC : List ScoredRec := [{ movieId := 1, title := "A", score := 9 / 2 }]

/-- A one-candidate content list used in concrete merge checks. -/
def mdO : List ScoredRec := [{ movieId := 2, title := "B", score := 4 / 5 }]

/-- A one-candidate statistical list sharing movieId 1 with `mdC` but with
a different title, used to check metadata priority. -/
def mdS : List ScoredRec := [{ movieId := 1, title := "C", score := 21 / 5 }]

/-- Engine reads for a returning user on which the merged hybrid head
(movie 2) differs from the collaborative top prediction (movie 1). -/
def hybridEnv : Env :=
  { ratingCount := 10,
    collabPreds := [{ movieId := 1, title := "M1", genres := "Action", score := 5 },
                    { movieId := 2, title := "M2", genres := "Drama", score := 9 / 2 },
                    { movieId := 3, title := "M3", genres := "Comedy", score := 4 }],
    contentAgg := [{ movieId := 2, title := "M2", genres := "Drama",
                     similarity_score := 4 / 5, score := 4 / 5, count := 1 }],
    statsMovies := [{ movieId := 2, title := "M2", genres := "Drama",
                      avg_rating := 5, vote_count := 100 }],
    globalMean := 3 }

/-- Engine reads for a returning user (10 ratings) with no candidate data. -/
def invalidEnv : Env :=
  { ratingCount := 10, collabPreds := [], contentAgg := [], statsMovies := [],
    globalMean := 3 }

/-- Engine reads for a new user with only 2 ratings. -/
def coldEnv : Env :=
  { ratingCount := 2, collabPreds := [], contentAgg := [], statsMovies := [],
    globalMean := 3 }

/-! ### Lemmas on the stable sort -/

theorem insertLeBy_perm {α : Type} (le : α → α → Bool) (x : α) (l : List α) :
    (insertLeBy le x l).Perm (x :: l) := by
  induction l with
  | nil => exact .refl _
  | cons y ys ih =>
    simp only [insertLeBy]
    split
    · exact .refl _
    · exact (ih.cons y).trans (List.Perm.swap x y ys)

theorem stableSortBy_perm {α : Type} (le : α → α → Bool) (l : List α) :
    (stableSortBy le l).Perm l := by
  induction l with
  | nil => exact .refl _
  | cons x xs ih => exact (insertLeBy_perm le x _).trans (ih.cons x)

theorem insertLeBy_pairwise {α : Type} (le : α → α → Bool)
    (htot : ∀ a b, le a b = true ∨ le b a = true)
    (htrans : ∀ a b c, le a b = true → le b c = true → le a c = true)
    (x : α) (l : List α) (hl : l.Pairwise (fun a b => le a b = true)) :
    (insertLeBy le x l).Pairwise (fun a b => le a b = true) := by
  induction l with
  | nil => simp [insertLeBy]
  | cons y ys ih =>
    rcases List.pairwise_cons.1 hl with ⟨hy, hys⟩
    simp only [insertLeBy]
    split
    case isTrue h =>
      refine List.pairwise_cons.2 ⟨?_, hl⟩
      intro b hb
      rcases List.mem_cons.1 hb with hb | hb
      · exact hb ▸ h
      · exact htrans x y b h (hy b hb)
    case isFalse h =>
      have hyx : le y x = true := (htot x y).resolve_left h
      refine List.pairwise_cons.2 ⟨?_, ih hys⟩
      intro b hb
      rcases List.mem_cons.1 ((insertLeBy_perm le x ys).mem_iff.1 hb) with hb | hb
      · exact hb ▸ hyx
      · exact hy b hb

theorem stableSortBy_pairwise {α : Type} (le : α → α → Bool)
    (htot : ∀ a b, le a b = true ∨ le b a = true)
    (htrans : ∀ a b c, le a b = true → le b c = true → le a c = true)
    (l : List α) :
    (stableSortBy le l).Pairwise (fun a b => le a b = true) := by
  induction l with
  | nil => simp [stableSortBy]
  | cons x xs ih => exact insertLeBy_pairwise le htot htrans x _ ih

theorem stableSortBy_head_le {α : Type} (le : α → α → Bool)
    (htot : ∀ a b, le a b = true ∨ le b a = true)
    (htrans : ∀ a b c, le a b = true → le b c = true → le a c = true)
    (l : List α) (h : α) (t : List α)
    (he : stableSortBy le l = h :: t) : ∀ y ∈ l, le h y = true := by
  intro y hy
  have hmem : y ∈ h :: t := he ▸ (stableSortBy_perm le l).mem_iff.2 hy
  rcases List.mem_cons.1 hmem with hb | hb
  · rcases hb with rfl
    exact (htot y y).elim id id
  · have hp := stableSortBy_pairwise le htot htrans l
    rw [he] at hp
    exact (List.pairwise_cons.1 hp).1 y hb

/-! ### Lemmas on Python-dict association lists -/

theorem mem_dictInsert {d : List (Int × ℚ)} {k : Int} {v : ℚ} {p : Int × ℚ}
    (hp : p ∈ dictInsert d k v) : p ∈ d ∨ p = (k, v) := by
  unfold dictInsert at hp
  split at hp
  · rcases List.mem_map.1 hp with ⟨q, hq, he⟩
    by_cases h : q.1 = k
    · simp only [h, if_pos] at he
      exact .inr he.symm
    · simp only [h, if_neg, not_false_iff] at he
      exact .inl (he ▸ hq)
  · rcases List.mem_append.1 hp with h | h
    · exact .inl h
    · exact .inr (List.mem_singleton.1 h)

theorem mem_buildDict_core (f : ScoredRec → ℚ) (recs : List ScoredRec)
    (d : List (Int × ℚ)) (p : Int × ℚ)
    (hp : p ∈ recs.foldl (fun d r => dictInsert d r.movieId (f r)) d) :
    p ∈ d ∨ ∃ r ∈ recs, p = (r.movieId, f r) := by
  induction recs generalizing d with
  | nil => exact .inl hp
  | cons r rs ih =>
    simp only [List.foldl_cons] at hp
    rcases ih _ hp with h | h
    · rcases mem_dictInsert h with h | h
      · exact .inl h
      · exact .inr ⟨r, List.mem_cons_self r rs, h⟩
    · rcases h with ⟨r', hr', he⟩
      exact .inr ⟨r', List.mem_cons_of_mem r hr', he⟩

theorem mem_buildDict (f : ScoredRec → ℚ) (recs : List ScoredRec) (p : Int × ℚ)
    (hp : p ∈ buildDict f recs) : ∃ r ∈ recs, p = (r.movieId, f r) :=
  (mem_buildDict_core f recs [] p hp).resolve_left (by simp)

theorem keys_map_overwrite (d : List (Int × ℚ)) (k : Int) (v : ℚ) :
    (d.map (fun p => if p.1 = k then (k, v) else p)).map Prod.fst = d.map Prod.fst := by
  rw [List.map_map]
  refine List.map_congr_left (fun p _ => ?_)
  by_cases hc : p.1 = k
  · simp [Function.comp, hc]
  · simp [Function.comp, hc]

theorem keys_dictInsert (d : List (Int × ℚ)) (k : Int) (v : ℚ) (k' : Int) :
    k' ∈ (dictInsert d k v).map Prod.fst ↔ k' ∈ d.map Prod.fst ∨ k' = k := by
  unfold dictInsert
  split
  case isTrue h =>
    rcases List.any_eq_true.1 h with ⟨q, hq, hqe⟩
    rw [keys_map_overwrite]
    constructor
    · exact .inl
    · rintro (hm | rfl)
      · exact hm
      · exact List.mem_map.2 ⟨q, hq, of_decide_eq_true hqe⟩
  case isFalse h =>
    simp [List.mem_append, List.mem_map]

theorem keys_buildDict_core (f : ScoredRec → ℚ) (recs : List ScoredRec)
    (d : List (Int × ℚ)) (k : Int) :
    (k ∈ ((recs.foldl (fun d r => dictInsert d r.movieId (f r)) d).map Prod.fst) ↔
      k ∈ d.map Prod.fst ∨ k ∈ recs.map (fun r => r.movieId)) := by
  induction recs generalizing d with
  | nil => simp
  | cons r rs ih =>
    simp only [List.foldl_cons]
    rw [ih, keys_dictInsert]
    simp only [List.map_cons, List.mem_cons]
    tauto

theorem keys_buildDict (f : ScoredRec → ℚ) (recs : List ScoredRec) (k : Int) :
    k ∈ (buildDict f recs).map Prod.fst ↔ k ∈ recs.map (fun r => r.movieId) := by
  rw [buildDict, keys_buildDict_core]
  simp

theorem lookup_mem {d : List (Int × ℚ)} {m : Int} {v : ℚ}
    (h : dictLookup d m = some v) : (m, v) ∈ d := by
  induction d with
  | nil => simp [dictLookup] at h
  | cons p ps ih =>
    obtain ⟨k, b⟩ := p
    simp only [dictLookup] at h
    split at h
    next heq =>
      obtain rfl : b = v := by injection h
      exact heq ▸ List.mem_cons_self _ _
    next _ => exact List.mem_cons_of_mem _ (ih h)

theorem lookup_isSome_of_mem_keys {d : List (Int × ℚ)} {m : Int}
    (h : m ∈ d.map Prod.fst) : ∃ v, dictLookup d m = some v := by
  induction d with
  | nil => simp at h
  | cons p ps ih =>
    obtain ⟨k, b⟩ := p
    by_cases hc : k = m
    · exact ⟨b, by simp only [dictLookup, if_pos hc]⟩
    · have hm : m ∈ ps.map Prod.fst := by
        simp only [List.map_cons, List.mem_cons] at h
        exact h.resolve_left (fun he => hc he.symm)
      rcases ih hm with ⟨v, hv⟩
      exact ⟨v, by simp only [dictLookup, if_neg hc]; exact hv⟩

theorem buildDict_eq_map_core (f : ScoredRec → ℚ) (recs : List ScoredRec)
    (d : List (Int × ℚ))
    (hdis : ∀ r ∈ recs, r.movieId ∉ d.map Prod.fst)
    (hnd : (recs.map (fun r => r.movieId)).Nodup) :
    recs.foldl (fun d r => dictInsert d r.movieId (f r)) d =
      d ++ recs.map (fun r => (r.movieId, f r)) := by
  induction recs generalizing d with
  | nil => simp
  | cons r rs ih =>
    have hknot : ¬ d.any (fun p => p.1 = r.movieId) = true := by
      intro hany
      rcases List.any_eq_true.1 hany with ⟨q, hq, hqe⟩
      exact hdis r (List.mem_cons_self r rs)
        (List.mem_map.2 ⟨q, hq, of_decide_eq_true hqe⟩)
    have hins : dictInsert d r.movieId (f r) = d ++ [(r.movieId, f r)] := by
      unfold dictInsert
      rw [if_neg hknot]
    simp only [List.foldl_cons, hins]
    rw [ih (d ++ [(r.movieId, f r)]) ?_ ?_]
    · simp
    · intro r' hr'
      simp only [List.map_append, List.mem_append, List.map_cons, List.map_nil,
        List.mem_singleton, not_or]
      refine ⟨hdis r' (List.mem_cons_of_mem r hr'), ?_⟩
      intro he
      have hr'mem : r'.movieId ∈ rs.map (fun r => r.movieId) := List.mem_map.2 ⟨r', hr', rfl⟩
      rw [List.map_cons, List.nodup_cons] at hnd
      exact hnd.1 (he ▸ hr'mem)
    · rw [List.map_cons, List.nodup_cons] at hnd
      exact hnd.2

theorem buildDict_eq_map (f : ScoredRec → ℚ) (recs : List ScoredRec)
    (hnd : (recs.map (fun r => r.movieId)).Nodup) :
    buildDict f recs = recs.map (fun r => (r.movieId, f r)) := by
  rw [buildDict, buildDict_eq_map_core f recs [] (by simp) hnd, List.nil_append]

theorem lookup_map_pair (f : ScoredRec → ℚ) (recs : List ScoredRec) (m : Int) :
    dictLookup (recs.map (fun r => (r.movieId, f r))) m =
      (findFirst recs m).map f := by
  induction recs with
  | nil => simp [dictLookup, findFirst]
  | cons r rs ih =>
    simp only [List.map_cons, dictLookup, findFirst]
    by_cases hc : r.movieId = m
    · simp [hc]
    · rw [if_neg hc, if_neg hc]
      exact ih

theorem findFirst_self_of_nodup (recs : List ScoredRec)
    (hnd : (recs.map (fun r => r.movieId)).Nodup) (r : ScoredRec) (hr : r ∈ recs) :
    findFirst recs r.movieId = some r := by
  induction recs with
  | nil => simp at hr
  | cons x xs ih =>
    rw [List.map_cons, List.nodup_cons] at hnd
    rcases List.mem_cons.1 hr with rfl | hr'
    · simp [findFirst]
    · have hne : x.movieId ≠ r.movieId := by
        intro he
        exact hnd.1 (he ▸ List.mem_map.2 ⟨r, hr', rfl⟩)
      simp only [findFirst, if_neg hne]
      exact ih hnd.2 hr'

/-! ### Lemmas on `min(scores)` / `max(scores)` -/

theorem foldl_min_le_init (l : List ℚ) (a : ℚ) : l.foldl min a ≤ a := by
  induction l generalizing a with
  | nil => simp
  | cons x xs ih => exact le_trans (ih (min a x)) (min_le_left a x)

theorem foldl_min_le_mem (l : List ℚ) (a : ℚ) : ∀ y ∈ l, l.foldl min a ≤ y := by
  induction l generalizing a with
  | nil => simp
  | cons x xs ih =>
    intro y hy
    rcases List.mem_cons.1 hy with rfl | hy'
    · exact le_trans (foldl_min_le_init xs (min a y)) (min_le_right a y)
    · exact ih (min a x) y hy'

theorem init_le_foldl_max (l : List ℚ) (a : ℚ) : a ≤ l.foldl max a := by
  induction l generalizing a with
  | nil => simp
  | cons x xs ih => exact le_trans (le_max_left a x) (ih (max a x))

theorem mem_le_foldl_max (l : List ℚ) (a : ℚ) : ∀ y ∈ l, y ≤ l.foldl max a := by
  induction l generalizing a with
  | nil => simp
  | cons x xs ih =>
    intro y hy
    rcases List.mem_cons.1 hy with rfl | hy'
    · exact le_trans (le_max_right a y) (init_le_foldl_max xs (max a y))
    · exact ih (max a x) y hy'

theorem minScoreOf_le {recs : List ScoredRec} {r : ScoredRec} (hr : r ∈ recs) :
    minScoreOf recs ≤ r.score := by
  match recs with
  | x :: xs =>
    rcases List.mem_cons.1 hr with rfl | hr'
    · exact foldl_min_le_init _ _
    · exact foldl_min_le_mem _ _ r.score (List.mem_map.2 ⟨r, hr', rfl⟩)

theorem le_maxScoreOf {recs : List ScoredRec} {r : ScoredRec} (hr : r ∈ recs) :
    r.score ≤ maxScoreOf recs := by
  match recs with
  | x :: xs =>
    rcases List.mem_cons.1 hr with rfl | hr'
    · exact init_le_foldl_max _ _
    · exact mem_le_foldl_max _ _ r.score (List.mem_map.2 ⟨r, hr', rfl⟩)

theorem minScoreOf_le_maxScoreOf {recs : List ScoredRec} (h : recs ≠ []) :
    minScoreOf recs ≤ maxScoreOf recs := by
  match recs with
  | x :: xs =>
    exact le_trans (minScoreOf_le (List.mem_cons_self x xs))
      (le_maxScoreOf (List.mem_cons_self x xs))

/-! ### Lemmas on `Ranker.normalize_scores` -/

theorem normalize_scores_keys (recs : List ScoredRec) (k : Int) :
    k ∈ (Ranker.normalize_scores recs).map Prod.fst ↔
      k ∈ recs.map (fun r => r.movieId) := by
  match recs with
  | [] => simp [Ranker.normalize_scores]
  | r :: rs =>
    rw [Ranker.normalize_scores]
    split
    · exact keys_buildDict _ _ k
    · exact keys_buildDict _ _ k

theorem normalize_scores_mem_val (recs : List ScoredRec) (m : Int) (v : ℚ)
    (h : dictLookup (Ranker.normalize_scores recs) m = some v) :
    ∃ r ∈ recs, m = r.movieId ∧
      (v = 1 ∨ v = (r.score - minScoreOf recs) / (maxScoreOf recs - minScoreOf recs)) := by
  match recs with
  | [] => simp [Ranker.normalize_scores, dictLookup] at h
  | r :: rs =>
    rw [Ranker.normalize_scores] at h
    split at h
    · rcases mem_buildDict _ _ _ (lookup_mem h) with ⟨r', hr', he⟩
      obtain ⟨he1, he2⟩ := Prod.mk.injEq .. ▸ he
      exact ⟨r', hr', by simp_all⟩
    · rcases mem_buildDict _ _ _ (lookup_mem h) with ⟨r', hr', he⟩
      obtain ⟨he1, he2⟩ := Prod.mk.injEq .. ▸ he
      exact ⟨r', hr', by simp_all⟩

theorem normalize_scores_bounds (recs : List ScoredRec) (m : Int) (v : ℚ)
    (h : dictLookup (Ranker.normalize_scores recs) m = some v) : 0 ≤ v ∧ v ≤ 1 := by
  match recs with
  | [] => simp [Ranker.normalize_scores, dictLookup] at h
  | r :: rs =>
    rw [Ranker.normalize_scores] at h
    split at h
    · rcases mem_buildDict _ _ _ (lookup_mem h) with ⟨r', _, he⟩
      obtain ⟨_, he2⟩ := Prod.mk.injEq .. ▸ he
      rw [he2]
      norm_num
    case isFalse hne =>
      rcases mem_buildDict _ _ _ (lookup_mem h) with ⟨r', hr', he⟩
      obtain ⟨_, he2⟩ := Prod.mk.injEq .. ▸ he
      rw [he2]
      have hlt : minScoreOf (r :: rs) < maxScoreOf (r :: rs) :=
        lt_of_le_of_ne (minScoreOf_le_maxScoreOf (by simp)) (fun he => hne he.symm)
      have hpos : 0 < maxScoreOf (r :: rs) - minScoreOf (r :: rs) := by linarith
      constructor
      · apply div_nonneg _ (le_of_lt hpos)
        have := minScoreOf_le hr'
        linarith
      · rw [div_le_one hpos]
        have := le_maxScoreOf hr'
        linarith

theorem normalize_scores_lookup_allEq (recs : List ScoredRec) (r : ScoredRec)
    (hr : r ∈ recs) (heq : maxScoreOf recs = minScoreOf recs) :
    dictLookup (Ranker.normalize_scores recs) r.movieId = some 1 := by
  match recs with
  | r0 :: rs =>
    rw [Ranker.normalize_scores]
    rw [if_pos heq]
    have hkey : r.movieId ∈ (buildDict (fun _ => 1) (r0 :: rs)).map Prod.fst :=
      (keys_buildDict _ _ _).2 (List.mem_map.2 ⟨r, hr, rfl⟩)
    rcases lookup_isSome_of_mem_keys hkey with ⟨v, hv⟩
    rcases mem_buildDict _ _ _ (lookup_mem hv) with ⟨r', _, he⟩
    obtain ⟨_, he2⟩ := Prod.mk.injEq .. ▸ he
    rw [hv, he2]

theorem normalize_scores_lookup_scaled (recs : List ScoredRec)
    (hnd : (recs.map (fun r => r.movieId)).Nodup) (r : ScoredRec) (hr : r ∈ recs)
    (hne : maxScoreOf recs ≠ minScoreOf recs) :
    dictLookup (Ranker.normalize_scores recs) r.movieId =
      some ((r.score - minScoreOf recs) / (maxScoreOf recs - minScoreOf recs)) := by
  match recs with
  | r0 :: rs =>
    rw [Ranker.normalize_scores]
    rw [if_neg hne]
    rw [buildDict_eq_map _ _ hnd, lookup_map_pair, findFirst_self_of_nodup _ hnd r hr]
    rfl

/-! ### Lemmas on the merge -/

theorem contribOf_eq_getD (d : List (Int × ℚ)) (w : ℚ) (m : Int) :
    contribOf d w m = (dictLookup d m).getD 0 * w := by
  unfold contribOf
  match dictLookup d m with
  | some v => rfl
  | none => simp

theorem combineFor_eq_getD (cN oN sN : List (Int × ℚ)) (w1 w2 w3 : ℚ) (m : Int) :
    combineFor cN oN sN w1 w2 w3 m =
      (dictLookup cN m).getD 0 * w1 + (dictLookup oN m).getD 0 * w2 +
        (dictLookup sN m).getD 0 * w3 := by
  unfold combineFor
  rw [contribOf_eq_getD, contribOf_eq_getD, contribOf_eq_getD, zero_add]

theorem mem_allMovieIds (cN oN sN : List (Int × ℚ)) (m : Int) :
    m ∈ allMovieIds cN oN sN ↔
      m ∈ cN.map Prod.fst ∨ m ∈ oN.map Prod.fst ∨ m ∈ sN.map Prod.fst := by
  unfold allMovieIds
  rw [List.mem_dedup, List.mem_append, List.mem_append, or_assoc]

theorem allMovieIds_nodup (cN oN sN : List (Int × ℚ)) :
    (allMovieIds cN oN sN).Nodup := List.nodup_dedup _

theorem findFirst_isSome (l : List ScoredRec) (m : Int)
    (h : ∃ r ∈ l, r.movieId = m) : ∃ src, findFirst l m = some src := by
  induction l with
  | nil => simp at h
  | cons x xs ih =>
    by_cases hc : x.movieId = m
    · exact ⟨x, by simp only [findFirst, if_pos hc]⟩
    · rcases h with ⟨r, hr, he⟩
      rcases List.mem_cons.1 hr with rfl | hr'
      · exact absurd he hc
      · rcases ih ⟨r, hr', he⟩ with ⟨src, hsrc⟩
        exact ⟨src, by simp only [findFirst, if_neg hc]; exact hsrc⟩

theorem merge_findFirst_isSome (c o s : List ScoredRec) (m : Int)
    (hm : m ∈ allMovieIds (Ranker.normalize_scores c) (Ranker.normalize_scores o)
      (Ranker.normalize_scores s)) :
    ∃ src, findFirst (c ++ o ++ s) m = some src := by
  apply findFirst_isSome
  rcases (mem_allMovieIds _ _ _ m).1 hm with h | h | h
  · rcases List.mem_map.1 ((normalize_scores_keys c m).1 h) with ⟨r, hr, he⟩
    exact ⟨r, List.mem_append.2 (.inl (List.mem_append.2 (.inl hr))), he⟩
  · rcases List.mem_map.1 ((normalize_scores_keys o m).1 h) with ⟨r, hr, he⟩
    exact ⟨r, List.mem_append.2 (.inl (List.mem_append.2 (.inr hr))), he⟩
  · rcases List.mem_map.1 ((normalize_scores_keys s m).1 h) with ⟨r, hr, he⟩
    exact ⟨r, List.mem_append.2 (.inr hr), he⟩

theorem filterMap_map_movieId (l : List Int) (f : Int → Option CombinedRec)
    (h : ∀ m ∈ l, ∃ e, f m = some e ∧ e.movieId = m) :
    (l.filterMap f).map (fun r => r.movieId) = l := by
  induction l with
  | nil => simp
  | cons m ms ih =>
    rcases h m (List.mem_cons_self m ms) with ⟨e, he, hme⟩
    rw [List.filterMap_cons, he, List.map_cons, hme,
      ih (fun m' hm' => h m' (List.mem_cons_of_mem m hm'))]

theorem mergeCore_map_movieId (c o s : List ScoredRec) (w1 w2 w3 : ℚ) :
    ((mergeCore c o s w1 w2 w3).map (fun r => r.movieId)).Perm
      (allMovieIds (Ranker.normalize_scores c) (Ranker.normalize_scores o)
        (Ranker.normalize_scores s)) := by
  unfold mergeCore
  refine ((stableSortBy_perm combinedLe _).map _).trans ?_
  rw [filterMap_map_movieId]
  intro m hm
  rcases merge_findFirst_isSome c o s m hm with ⟨src, hsrc⟩
  exact ⟨_, by rw [hsrc]; rfl, rfl⟩

theorem mem_mergeCore (c o s : List ScoredRec) (w1 w2 w3 : ℚ) (r : CombinedRec)
    (hr : r ∈ mergeCore c o s w1 w2 w3) :
    ∃ src, findFirst (c ++ o ++ s) r.movieId = some src ∧
      r = { movieId := r.movieId, tmdbId := src.tmdbId, title := src.title,
            genres := src.genres,
            combined_score := mergeScore c o s w1 w2 w3 r.movieId,
            source := "hybrid_weighted" } := by
  unfold mergeCore at hr
  have hr' := (stableSortBy_perm combinedLe _).mem_iff.1 hr
  rcases List.mem_filterMap.1 hr' with ⟨m, _, hm⟩
  rcases Option.map_eq_some'.1 hm with ⟨src, hsrc, he⟩
  have hid : r.movieId = m := by rw [← he]
  subst hid
  exact ⟨src, hsrc, by rw [← he]; rfl⟩

theorem combinedLe_total : ∀ a b : CombinedRec, combinedLe a b = true ∨ combinedLe b a = true := by
  intro a b
  unfold combinedLe
  rcases le_total a.combined_score b.combined_score with h | h
  · exact .inr (decide_eq_true h)
  · exact .inl (decide_eq_true h)

theorem combinedLe_trans : ∀ a b c : CombinedRec,
    combinedLe a b = true → combinedLe b c = true → combinedLe a c = true := by
  intro a b c hab hbc
  exact decide_eq_true (le_trans (of_decide_eq_true hbc) (of_decide_eq_true hab))

theorem mergeCore_sorted (c o s : List ScoredRec) (w1 w2 w3 : ℚ) :
    (mergeCore c o s w1 w2 w3).Pairwise
      (fun a b => b.combined_score ≤ a.combined_score) := by
  unfold mergeCore
  refine (stableSortBy_pairwise combinedLe combinedLe_total combinedLe_trans _).imp ?_
  intro a b h
  exact of_decide_eq_true h

theorem mergeCore_score (c o s : List ScoredRec) (w1 w2 w3 : ℚ) (r : CombinedRec)
    (hr : r ∈ mergeCore c o s w1 w2 w3) :
    r.combined_score = mergeScore c o s w1 w2 w3 r.movieId := by
  rcases mem_mergeCore c o s w1 w2 w3 r hr with ⟨src, _, he⟩
  exact congrArg CombinedRec.combined_score he

theorem mergeScore_eq_pairScore (c o s : List ScoredRec) (w1 w2 w3 : ℚ) (m : Int) :
    mergeScore c o s w1 w2 w3 m = pairScore [(c, w1), (o, w2), (s, w3)] m := by
  simp only [mergeScore, pairScore, combineFor, List.map_cons, List.map_nil, List.sum_cons,
    List.sum_nil]
  ring

theorem pairScore_perm (ps qs : List (List ScoredRec × ℚ)) (m : Int)
    (h : ps.Perm qs) : pairScore ps m = pairScore qs m :=
  (h.map _).sum_eq

/-! ### Lemmas on the diversity selection loop -/

theorem pickBestAux_fst (scores : List ℚ) (best : ℚ) (bestIdx i : Nat) :
    (pickBestAux scores best bestIdx i).1 = scores.foldl max best := by
  induction scores generalizing best bestIdx i with
  | nil => rfl
  | cons x xs ih =>
    simp only [pickBestAux, List.foldl_cons]
    split
    case isTrue h => rw [ih, max_eq_right (le_of_lt h)]
    case isFalse h => rw [ih, max_eq_left (le_of_not_lt h)]

theorem pickBestAux_idx (scores : List ℚ) (best : ℚ) (bestIdx i : Nat) :
    (pickBestAux scores best bestIdx i).2 = bestIdx ∨
      ∃ k, k < scores.length ∧ (pickBestAux scores best bestIdx i).2 = i + k := by
  induction scores generalizing best bestIdx i with
  | nil => exact .inl rfl
  | cons x xs ih =>
    simp only [pickBestAux]
    split
    · rcases ih x i (i + 1) with h | ⟨k, hk, he⟩
      · exact .inr ⟨0, by simp, by rw [h]; omega⟩
      · exact .inr ⟨k + 1, by simp [Nat.succ_lt_succ hk], by rw [he]; omega⟩
    · rcases ih best bestIdx (i + 1) with h | ⟨k, hk, he⟩
      · exact .inl h
      · exact .inr ⟨k + 1, by simp [Nat.succ_lt_succ hk], by rw [he]; omega⟩

theorem pickBestAux_stay (scores : List ℚ) (best : ℚ) (bestIdx i : Nat)
    (h : ∀ x ∈ scores, x ≤ best) :
    (pickBestAux scores best bestIdx i).2 = bestIdx ∧
      (pickBestAux scores best bestIdx i).1 = best := by
  induction scores generalizing best bestIdx i with
  | nil => exact ⟨rfl, rfl⟩
  | cons x xs ih =>
    simp only [pickBestAux]
    rw [if_neg (not_lt.2 (h x (List.mem_cons_self x xs)))]
    exact ih best bestIdx (i + 1) (fun y hy => h y (List.mem_cons_of_mem x hy))

theorem pickBestAux_argmax (scores : List ℚ) (best : ℚ) (bestIdx i : Nat)
    (h : ∃ x ∈ scores, best < x) :
    ∃ k, k < scores.length ∧ (pickBestAux scores best bestIdx i).2 = i + k ∧
      scores.getD k 0 = (pickBestAux scores best bestIdx i).1 ∧
      (∀ l, l < k → scores.getD l 0 < (pickBestAux scores best bestIdx i).1) ∧
      best < (pickBestAux scores best bestIdx i).1 := by
  induction scores generalizing best bestIdx i with
  | nil => simp at h
  | cons x xs ih =>
    simp only [pickBestAux]
    by_cases hx : best < x
    · rw [if_pos hx]
      by_cases h2 : ∃ y ∈ xs, x < y
      · rcases ih x i (i + 1) h2 with ⟨k, hk, hsnd, hget, hlt, hxlt⟩
        refine ⟨k + 1, Nat.succ_lt_succ hk, by rw [hsnd]; omega, by simpa using hget, ?_, ?_⟩
        · intro l hl
          match l with
          | 0 => simpa using hxlt
          | l' + 1 => simpa using hlt l' (Nat.lt_of_succ_lt_succ hl)
        · exact lt_trans hx hxlt
      · push_neg at h2
        rcases pickBestAux_stay xs x i (i + 1) (fun y hy => h2 y hy) with ⟨hsnd, hfst⟩
        refine ⟨0, by simp, by rw [hsnd]; omega, by simpa using hfst.symm, by simp, ?_⟩
        rw [hfst]
        exact hx
    · rw [if_neg hx]
      have h2 : ∃ y ∈ xs, best < y := by
        rcases h with ⟨y, hy, hby⟩
        rcases List.mem_cons.1 hy with rfl | hy'
        · exact absurd hby hx
        · exact ⟨y, hy', hby⟩
      rcases ih best bestIdx (i + 1) h2 with ⟨k, hk, hsnd, hget, hlt, hblt⟩
      refine ⟨k + 1, Nat.succ_lt_succ hk, by rw [hsnd]; omega, by simpa using hget, ?_, hblt⟩
      intro l hl
      match l with
      | 0 => simpa using lt_of_le_of_lt (le_of_not_lt hx) hblt
      | l' + 1 => simpa using hlt l' (Nat.lt_of_succ_lt_succ hl)

theorem pickBest_spec (scores : List ℚ) (hne : scores ≠ [])
    (hgt : ∀ x ∈ scores, (-1 : ℚ) < x) :
    ∃ k, k < scores.length ∧ (pickBest scores).2 = k ∧
      scores.getD k 0 = (pickBest scores).1 ∧
      (∀ l, l < k → scores.getD l 0 < (pickBest scores).1) ∧
      ∀ x ∈ scores, x ≤ (pickBest scores).1 := by
  have hex : ∃ x ∈ scores, (-1 : ℚ) < x := by
    match scores, hne with
    | x :: xs, _ => exact ⟨x, List.mem_cons_self x xs, hgt x (List.mem_cons_self x xs)⟩
  rcases pickBestAux_argmax scores (-1) 0 0 hex with ⟨k, hk, hsnd, hget, hlt, _⟩
  refine ⟨k, hk, by simpa using hsnd, hget, hlt, ?_⟩
  intro x hx
  rw [pickBest, pickBestAux_fst]
  exact mem_le_foldl_max _ _ x hx

theorem pickBest_lt_length (scores : List ℚ) (hne : scores ≠ []) :
    (pickBest scores).2 < scores.length := by
  rcases pickBestAux_idx scores (-1) 0 0 with h | ⟨k, hk, he⟩
  · rw [pickBest, h]
    exact List.length_pos.2 hne
  · rw [pickBest, he]
    omega

theorem cons_getD_eraseIdx_perm (l : List CombinedRec) (j : Nat) (hj : j < l.length)
    (dflt : CombinedRec) : (l.getD j dflt :: l.eraseIdx j).Perm l := by
  induction l generalizing j with
  | nil => simp at hj
  | cons x xs ih =>
    match j with
    | 0 => exact .refl _
    | j' + 1 =>
      have hj' : j' < xs.length := by simpa using hj
      have h1 : (x :: xs).getD (j' + 1) dflt = xs.getD j' dflt := rfl
      have h2 : (x :: xs).eraseIdx (j' + 1) = x :: xs.eraseIdx j' := rfl
      rw [h1, h2]
      exact (List.Perm.swap x (xs.getD j' dflt) (xs.eraseIdx j')).trans ((ih j' hj').cons x)

theorem rerankGo_perm (d : ℚ) (fuel : Nat) (seen : Finset String)
    (l : List CombinedRec) (h : l.length ≤ fuel) : (rerankGo d fuel seen l).Perm l := by
  induction fuel generalizing seen l with
  | zero =>
    obtain rfl : l = [] := List.length_eq_zero.1 (Nat.le_zero.1 h)
    exact .refl _
  | succ fuel ih =>
    match l with
    | [] => exact .refl _
    | r :: rs =>
      simp only [rerankGo]
      have hjlt : (pickBest ((r :: rs).map (adjScore d seen))).2 < (r :: rs).length := by
        have := pickBest_lt_length ((r :: rs).map (adjScore d seen)) (by simp)
        simpa using this
      have hlen : ((r :: rs).eraseIdx (pickBest ((r :: rs).map (adjScore d seen))).2).length
          ≤ fuel := by
        rw [List.length_eraseIdx, if_pos hjlt]
        simp only [List.length_cons] at h ⊢
        omega
      exact ((ih _ _ hlen).cons _).trans (cons_getD_eraseIdx_perm (r :: rs) _ hjlt r)

theorem adjScore_eq (d : ℚ) (seen : Finset String) (r : CombinedRec) :
    adjScore d seen r = r.combined_score +
      d * ((genreSetOf r.genres \ seen).card : ℚ) / ((genreSetOf r.genres).card : ℚ) := by
  simp only [adjScore]
  split
  · rfl
  case isFalse h =>
    rw [Finset.not_nonempty_iff_eq_empty.1 h]
    simp

theorem le_adjScore (d : ℚ) (seen : Finset String) (r : CombinedRec) (hd : 0 ≤ d) :
    r.combined_score ≤ adjScore d seen r := by
  rw [adjScore_eq]
  have h0 : (0 : ℚ) ≤ d * ((genreSetOf r.genres \ seen).card : ℚ) /
      ((genreSetOf r.genres).card : ℚ) :=
    div_nonneg (mul_nonneg hd (Nat.cast_nonneg _)) (Nat.cast_nonneg _)
  linarith

/-! ### Comparator facts for the engine sorts -/

theorem scoredLe_total : ∀ a b : ScoredRec, scoredLe a b = true ∨ scoredLe b a = true := by
  intro a b
  unfold scoredLe
  rcases le_total a.score b.score with h | h
  · exact .inr (decide_eq_true h)
  · exact .inl (decide_eq_true h)

theorem scoredLe_trans : ∀ a b c : ScoredRec,
    scoredLe a b = true → scoredLe b c = true → scoredLe a c = true := by
  intro a b c hab hbc
  exact decide_eq_true (le_trans (of_decide_eq_true hbc) (of_decide_eq_true hab))

theorem statLe_total : ∀ a b : SRec, statLe a b = true ∨ statLe b a = true := by
  intro a b
  unfold statLe
  rcases le_total a.weighted_rating b.weighted_rating with h | h
  · exact .inr (decide_eq_true h)
  · exact .inl (decide_eq_true h)

theorem statLe_trans : ∀ a b c : SRec,
    statLe a b = true → statLe b c = true → statLe a c = true := by
  intro a b c hab hbc
  exact decide_eq_true (le_trans (of_decide_eq_true hbc) (of_decide_eq_true hab))

/-! ### Claim theorems -/

/-- C3: `Ranker.normalize_scores` returns the empty map on empty input;
when the max raw score equals the min it maps every candidate's movieId
to exactly 1.0; otherwise (for candidate lists with pairwise-distinct
movieIds, as the `ScoredCandidate` data model requires) it maps each
candidate's movieId to `(raw − min) / (max − min)`; and every value of
the returned map lies in [0, 1]. -/
theorem normalize_scores_spec :
    (Ranker.normalize_scores [] = []) ∧
    (∀ recs : List ScoredRec, maxScoreOf recs = minScoreOf recs →
      ∀ r ∈ recs, dictLookup (Ranker.normalize_scores recs) r.movieId = some 1) ∧
    (∀ recs : List ScoredRec, (recs.map (fun r => r.movieId)).Nodup →
      maxScoreOf recs ≠ minScoreOf recs →
      ∀ r ∈ recs, dictLookup (Ranker.normalize_scores recs) r.movieId =
        some ((r.score - minScoreOf recs) / (maxScoreOf recs - minScoreOf recs))) ∧
    (∀ (recs : List ScoredRec) (m : Int) (v : ℚ),
      dictLookup (Ranker.normalize_scores recs) m = some v → 0 ≤ v ∧ v ≤ 1) := by
  refine ⟨rfl, ?_, ?_, ?_⟩
  · intro recs heq r hr
    exact normalize_scores_lookup_allEq recs r hr heq
  · intro recs hnd hne r hr
    exact normalize_scores_lookup_scaled recs hnd r hr hne
  · intro recs m v h
    exact normalize_scores_bounds recs m v h

/-- Witness for C3: the min-max branch evaluated on two candidates with
raw scores 2 and 4, and the all-equal branch on two identical scores. -/
theorem normalize_scores_spec_witness :
    ((([{ movieId := 1, score := 2 }, { movieId := 2, score := 4 }] :
        List ScoredRec).map (fun r => r.movieId)).Nodup ∧
      maxScoreOf [{ movieId := 1, score := 2 }, { movieId := 2, score := 4 }] ≠
        minScoreOf [{ movieId := 1, score := 2 }, { movieId := 2, score := 4 }]) ∧
    dictLookup (Ranker.normalize_scores
        [{ movieId := 1, score := 2 }, { movieId := 2, score := 4 }]) 1 =
      some ((2 - minScoreOf [{ movieId := 1, score := 2 }, { movieId := 2, score := 4 }]) /
        (maxScoreOf [{ movieId := 1, score := 2 }, { movieId := 2, score := 4 }] -
         minScoreOf [{ movieId := 1, score := 2 }, { movieId := 2, score := 4 }])) ∧
    maxScoreOf [({ movieId := 5, score := 3 } : ScoredRec), { movieId := 7, score := 3 }] =
      minScoreOf [({ movieId := 5, score := 3 } : ScoredRec), { movieId := 7, score := 3 }] ∧
    dictLookup (Ranker.normalize_scores
        [{ movieId := 5, score := 3 }, { movieId := 7, score := 3 }]) 5 = some 1 := by
  refine ⟨⟨by decide, by decide⟩, ?_, by decide, ?_⟩
  · exact normalize_scores_spec.2.2.1
      [{ movieId := 1, score := 2 }, { movieId := 2, score := 4 }]
      (by decide) (by decide) { movieId := 1, score := 2 } (by decide)
  · exact normalize_scores_spec.2.1
      [{ movieId := 5, score := 3 }, { movieId := 7, score := 3 }]
      (by decide) { movieId := 5, score := 3 } (by decide)

/-- C2: for all three candidate lists and every weight triple accepted by
the tolerance check, `Ranker.merge_and_rank` succeeds and returns exactly
one entry per distinct movieId of the union of the three normalized maps;
each entry's `combined_score` is the sum, over the sources whose
normalized map contains its movieId, of the normalized score times that
source's weight (an absent source contributes zero); and the output is
ordered by non-increasing `combined_score`. -/
theorem merge_and_rank_spec (c o s : List ScoredRec) (w1 w2 w3 : ℚ)
    (hw : |w1 + w2 + w3 - 1| < 1 / 100) :
    ∃ out, Ranker.merge_and_rank c o s w1 w2 w3 = .ok out ∧
      (out.map (fun r => r.movieId)).Nodup ∧
      (∀ m : Int, m ∈ out.map (fun r => r.movieId) ↔
        (m ∈ (Ranker.normalize_scores c).map Prod.fst ∨
         m ∈ (Ranker.normalize_scores o).map Prod.fst ∨
         m ∈ (Ranker.normalize_scores s).map Prod.fst)) ∧
      (∀ r ∈ out, r.combined_score =
        (dictLookup (Ranker.normalize_scores c) r.movieId).getD 0 * w1 +
        (dictLookup (Ranker.normalize_scores o) r.movieId).getD 0 * w2 +
        (dictLookup (Ranker.normalize_scores s) r.movieId).getD 0 * w3) ∧
      out.Pairwise (fun a b => b.combined_score ≤ a.combined_score) := by
  refine ⟨mergeCore c o s w1 w2 w3, ?_, ?_, ?_, ?_, mergeCore_sorted c o s w1 w2 w3⟩
  · rw [Ranker.merge_and_rank, if_pos hw]
  · exact (mergeCore_map_movieId c o s w1 w2 w3).symm.nodup (allMovieIds_nodup _ _ _)
  · intro m
    rw [(mergeCore_map_movieId c o s w1 w2 w3).mem_iff, mem_allMovieIds]
  · intro r hr
    rw [mergeCore_score c o s w1 w2 w3 r hr, mergeScore, combineFor_eq_getD]

/-- Witness for C2: the merge evaluated on the spec's Scenario A inputs. -/
theorem merge_and_rank_spec_witness :
    (|(1 : ℚ) / 2 + 3 / 10 + 1 / 5 - 1| < 1 / 100) ∧
    ∃ out, Ranker.merge_and_rank
        [{ movieId := 1, score := 9 / 2 }, { movieId := 2, score := 3 }]
        [{ movieId := 2, score := 4 / 5 }, { movieId := 3, score := 3 / 5 }]
        [{ movieId := 3, score := 21 / 5 }] (1 / 2) (3 / 10) (1 / 5) = .ok out ∧
      (out.map (fun r => r.movieId)).Nodup ∧
      out.Pairwise (fun a b => b.combined_score ≤ a.combined_score) := by
  refine ⟨by norm_num, ?_⟩
  rcases merge_and_rank_spec
      [{ movieId := 1, score := 9 / 2 }, { movieId := 2, score := 3 }]
      [{ movieId := 2, score := 4 / 5 }, { movieId := 3, score := 3 / 5 }]
      [{ movieId := 3, score := 21 / 5 }] (1 / 2) (3 / 10) (1 / 5) (by norm_num) with
    ⟨out, h1, h2, _, _, h5⟩
  exact ⟨out, h1, h2, h5⟩

/-- C8 as stated is false: the weight triple `(3/2, −1/4, −1/4)` sums to
exactly 1.0, the single collaborative candidate normalizes to 1.0, yet
its merged `combined_score` is 3/2, outside [0, 1]. -/
theorem merge_convex_counterexample :
    ((3 : ℚ) / 2) + (-1 / 4) + (-1 / 4) = 1 ∧
    Ranker.merge_and_rank [{ movieId := 1, score := 2 }] [] [] (3 / 2) (-1 / 4) (-1 / 4) =
      .ok [{ movieId := 1, tmdbId := none, title := "", genres := "",
             combined_score := 3 / 2, source := "hybrid_weighted" }] ∧
    ¬ ((3 : ℚ) / 2 ≤ 1) := by
  refine ⟨by norm_num, ?_, by norm_num⟩
  norm_num [Ranker.merge_and_rank, mergeCore, Ranker.normalize_scores, minScoreOf,
    maxScoreOf, buildDict, dictInsert, allMovieIds, combineFor, contribOf, dictLookup,
    stableSortBy, insertLeBy, List.dedup, findFirst]

/-- C8 (amended: the weights must in addition be nonnegative, as the
configured weights are): for every triple of nonnegative weights summing
to exactly 1 and all inputs, every merged `combined_score` lies in [0, 1],
including for movieIds present in only a strict subset of the sources. -/
theorem merge_convex_bounds (c o s : List ScoredRec) (w1 w2 w3 : ℚ)
    (h1 : 0 ≤ w1) (h2 : 0 ≤ w2) (h3 : 0 ≤ w3) (hsum : w1 + w2 + w3 = 1) :
    ∃ out, Ranker.merge_and_rank c o s w1 w2 w3 = .ok out ∧
      ∀ r ∈ out, 0 ≤ r.combined_score ∧ r.combined_score ≤ 1 := by
  have hw : |w1 + w2 + w3 - 1| < 1 / 100 := by rw [hsum]; norm_num
  refine ⟨mergeCore c o s w1 w2 w3, by rw [Ranker.merge_and_rank, if_pos hw], ?_⟩
  intro r hr
  rw [mergeCore_score c o s w1 w2 w3 r hr, mergeScore, combineFor_eq_getD]
  have hb : ∀ (recs : List ScoredRec) (w : ℚ), 0 ≤ w →
      0 ≤ (dictLookup (Ranker.normalize_scores recs) r.movieId).getD 0 * w ∧
      (dictLookup (Ranker.normalize_scores recs) r.movieId).getD 0 * w ≤ w := by
    intro recs w hw0
    match hl : dictLookup (Ranker.normalize_scores recs) r.movieId with
    | none => simpa using hw0
    | some v =>
      rcases normalize_scores_bounds recs r.movieId v hl with ⟨hv0, hv1⟩
      simp only [Option.getD_some]
      exact ⟨mul_nonneg hv0 hw0, by nlinarith⟩
  rcases hb c w1 h1 with ⟨hc0, hc1⟩
  rcases hb o w2 h2 with ⟨ho0, ho1⟩
  rcases hb s w3 h3 with ⟨hs0, hs1⟩
  constructor <;> linarith

/-- Witness for C8 (amended) at the configured weights `[0.5, 0.3, 0.2]`
and a movie present in only one source. -/
theorem merge_convex_bounds_witness :
    ((0 : ℚ) ≤ 1 / 2 ∧ (0 : ℚ) ≤ 3 / 10 ∧ (0 : ℚ) ≤ 1 / 5 ∧
      (1 : ℚ) / 2 + 3 / 10 + 1 / 5 = 1) ∧
    ∃ out, Ranker.merge_and_rank [{ movieId := 1, score := 2 }] [] []
        (1 / 2) (3 / 10) (1 / 5) = .ok out ∧
      ∀ r ∈ out, 0 ≤ r.combined_score ∧ r.combined_score ≤ 1 := by
  refine ⟨⟨by norm_num, by norm_num, by norm_num, by norm_num⟩, ?_⟩
  exact merge_convex_bounds [{ movieId := 1, score := 2 }] [] [] (1 / 2) (3 / 10) (1 / 5)
    (by norm_num) (by norm_num) (by norm_num) (by norm_num)

theorem union3_keys_iff (x y z : List ScoredRec) (wx wy wz : ℚ) (m : Int) :
    (m ∈ (Ranker.normalize_scores x).map Prod.fst ∨
     m ∈ (Ranker.normalize_scores y).map Prod.fst ∨
     m ∈ (Ranker.normalize_scores z).map Prod.fst) ↔
    ∃ p ∈ ([(x, wx), (y, wy), (z, wz)] : List (List ScoredRec × ℚ)),
      m ∈ (Ranker.normalize_scores p.1).map Prod.fst := by
  constructor
  · rintro (h | h | h)
    · exact ⟨(x, wx), by simp, h⟩
    · exact ⟨(y, wy), by simp, h⟩
    · exact ⟨(z, wz), by simp, h⟩
  · rintro ⟨p, hp, h⟩
    rcases List.mem_cons.1 hp with rfl | hp
    · exact .inl h
    rcases List.mem_cons.1 hp with rfl | hp
    · exact .inr (.inl h)
    rcases List.mem_cons.1 hp with rfl | hp
    · exact .inr (.inr h)
    · simp at hp

/-- C4: every entry of the merge output takes its display metadata
(title, genres, tmdbId) from the first record with its movieId in the
concatenation `collab_recs + content_recs + stats_recs` (collaborative
first, then content, then statistical); and the merge scores are
invariant under any reordering of the three `(source list, weight)`
argument pairs: the permuted merge has the same movieId set and assigns
every common movieId the same `combined_score`, so only the positional
metadata resolution depends on the order of the sources. -/
theorem merge_metadata_priority (c o s : List ScoredRec) (w1 w2 w3 : ℚ)
    (hw : |w1 + w2 + w3 - 1| < 1 / 100) :
    ∃ out, Ranker.merge_and_rank c o s w1 w2 w3 = .ok out ∧
      (∀ r ∈ out, ∃ src,
        findFirst (c ++ o ++ s) r.movieId = some src ∧
        r.title = src.title ∧ r.genres = src.genres ∧ r.tmdbId = src.tmdbId) ∧
      (∀ (c' o' s' : List ScoredRec) (w1' w2' w3' : ℚ),
        ([(c', w1'), (o', w2'), (s', w3')] : List (List ScoredRec × ℚ)).Perm
          [(c, w1), (o, w2), (s, w3)] →
        ∃ out', Ranker.merge_and_rank c' o' s' w1' w2' w3' = .ok out' ∧
          (∀ m : Int, m ∈ out'.map (fun r => r.movieId) ↔
            m ∈ out.map (fun r => r.movieId)) ∧
          (∀ r' ∈ out', ∀ r ∈ out, r'.movieId = r.movieId →
            r'.combined_score = r.combined_score)) := by
  refine ⟨mergeCore c o s w1 w2 w3, by rw [Ranker.merge_and_rank, if_pos hw], ?_, ?_⟩
  · intro r hr
    rcases mem_mergeCore c o s w1 w2 w3 r hr with ⟨src, hsrc, he⟩
    exact ⟨src, hsrc, congrArg CombinedRec.title he, congrArg CombinedRec.genres he,
      congrArg CombinedRec.tmdbId he⟩
  · intro c' o' s' w1' w2' w3' hperm
    have hw' : |w1' + w2' + w3' - 1| < 1 / 100 := by
      have hsum : w1' + w2' + w3' = w1 + w2 + w3 := by
        have h := (hperm.map Prod.snd).sum_eq
        simp only [List.map_cons, List.map_nil, List.sum_cons, List.sum_nil] at h
        linarith
      rw [hsum]
      exact hw
    refine ⟨mergeCore c' o' s' w1' w2' w3',
      by rw [Ranker.merge_and_rank, if_pos hw'], ?_, ?_⟩
    · intro m
      rw [(mergeCore_map_movieId c' o' s' w1' w2' w3').mem_iff, mem_allMovieIds,
        (mergeCore_map_movieId c o s w1 w2 w3).mem_iff, mem_allMovieIds,
        union3_keys_iff c' o' s' w1' w2' w3' m, union3_keys_iff c o s w1 w2 w3 m]
      constructor
      · rintro ⟨p, hp, h⟩
        exact ⟨p, hperm.mem_iff.1 hp, h⟩
      · rintro ⟨p, hp, h⟩
        exact ⟨p, hperm.mem_iff.2 hp, h⟩
    · intro r' hr' r hr he
      rw [mergeCore_score c' o' s' w1' w2' w3' r' hr',
        mergeCore_score c o s w1 w2 w3 r hr, he,
        mergeScore_eq_pairScore, mergeScore_eq_pairScore]
      exact pairScore_perm _ _ _ hperm

/-- Witness for C4: the merge on two one-candidate lists sharing a
movieId, where metadata must come from the collaborative record. -/
theorem merge_metadata_priority_witness :
    (|(1 : ℚ) / 2 + 3 / 10 + 1 / 5 - 1| < 1 / 100) ∧
    ∃ out, Ranker.merge_and_rank mdC mdO mdS (1 / 2) (3 / 10) (1 / 5) = .ok out ∧
      (∀ r ∈ out, ∃ src,
        findFirst (mdC ++ mdO ++ mdS) r.movieId = some src ∧
        r.title = src.title ∧ r.genres = src.genres ∧ r.tmdbId = src.tmdbId) := by
  refine ⟨by norm_num, ?_⟩
  rcases merge_metadata_priority mdC mdO mdS (1 / 2) (3 / 10) (1 / 5)
      (by norm_num) with ⟨out, h1, h2, _⟩
  exact ⟨out, h1, h2⟩

/-- C6: `Ranker.rerank_with_diversity` returns a permutation of its input
for every input ranking and diversity factor: the multiset of candidate
records (and hence of movieIds) is unchanged. -/
theorem rerank_with_diversity_perm (recommendations : List CombinedRec)
    (diversity_factor : ℚ) :
    (Ranker.rerank_with_diversity recommendations diversity_factor).Perm
      recommendations ∧
    ((Ranker.rerank_with_diversity recommendations diversity_factor).map
      (fun r => r.movieId)).Perm (recommendations.map (fun r => r.movieId)) := by
  have h := rerankGo_perm diversity_factor recommendations.length ∅ recommendations le_rfl
  exact ⟨h, h.map _⟩

/-- C7 as stated is false: with two candidates of base scores −5 and −2
sharing one genre and the default diversity factor, every adjusted score
stays below the `best_score = -1` the selection loop starts from, so the
first step keeps `best_idx = 0` and selects the candidate with the
strictly lower adjusted score. -/
theorem rerank_highest_counterexample :
    adjScore (3 / 10) ∅ { movieId := 1, genres := "Action", combined_score := -5 } <
      adjScore (3 / 10) ∅ { movieId := 2, genres := "Action", combined_score := -2 } ∧
    Ranker.rerank_with_diversity
      [{ movieId := 1, genres := "Action", combined_score := -5 },
       { movieId := 2, genres := "Action", combined_score := -2 }] (3 / 10) =
      [{ movieId := 1, genres := "Action", combined_score := -5 },
       { movieId := 2, genres := "Action", combined_score := -2 }] := by
  have hA : genreSetOf "Action" = {"Action"} := by decide
  constructor
  · norm_num [adjScore, hA, Finset.sdiff_empty, Finset.singleton_nonempty,
      Finset.card_singleton]
  · norm_num [Ranker.rerank_with_diversity, rerankGo, pickBest, pickBestAux, adjScore, hA,
      Finset.sdiff_empty, Finset.singleton_nonempty, Finset.card_singleton,
      Finset.empty_union, Finset.sdiff_self, Finset.not_nonempty_empty,
      List.eraseIdx, List.getD]

/-- C7 (amended: the claim holds provided the diversity factor and all
base scores are nonnegative, so that every adjusted score exceeds the
`-1` sentinel the scan starts from; otherwise the scan falls back to the
first remaining candidate): at each step every remaining candidate's
adjusted score equals `base + d·|genres∖seen|/|genres|` (zero boost for a
genre set inside `seen`, and no division by zero), the candidate with the
highest adjusted score is selected with ties broken by earliest position,
and its genres are unioned into `seen` for the recursive call. -/
theorem rerank_step_spec (d : ℚ) (seen : Finset String) (r0 : CombinedRec)
    (rs : List CombinedRec) (fuel : Nat) (hd : 0 ≤ d)
    (hbase : ∀ r ∈ r0 :: rs, 0 ≤ r.combined_score) :
    (∀ r ∈ r0 :: rs, adjScore d seen r = r.combined_score +
        d * ((genreSetOf r.genres \ seen).card : ℚ) / ((genreSetOf r.genres).card : ℚ)) ∧
    Ranker.rerank_with_diversity (r0 :: rs) d = rerankGo d (r0 :: rs).length ∅ (r0 :: rs) ∧
    ∃ j, j = (pickBest ((r0 :: rs).map (adjScore d seen))).2 ∧
      ∃ hj : j < (r0 :: rs).length,
        rerankGo d (fuel + 1) seen (r0 :: rs) =
          (r0 :: rs).get ⟨j, hj⟩ ::
            rerankGo d fuel (seen ∪ genreSetOf ((r0 :: rs).get ⟨j, hj⟩).genres)
              ((r0 :: rs).eraseIdx j) ∧
        (∀ r ∈ r0 :: rs, adjScore d seen r ≤ adjScore d seen ((r0 :: rs).get ⟨j, hj⟩)) ∧
        (∀ i, ∀ hi : i < (r0 :: rs).length, i < j →
          adjScore d seen ((r0 :: rs).get ⟨i, hi⟩) <
            adjScore d seen ((r0 :: rs).get ⟨j, hj⟩)) := by
  refine ⟨fun r _ => adjScore_eq d seen r, rfl, ?_⟩
  have hne : (r0 :: rs).map (adjScore d seen) ≠ [] := by simp
  have hgt : ∀ x ∈ (r0 :: rs).map (adjScore d seen), (-1 : ℚ) < x := by
    intro x hx
    rcases List.mem_map.1 hx with ⟨r, hr, rfl⟩
    have h0 := hbase r hr
    have h1 := le_adjScore d seen r hd
    linarith
  rcases pickBest_spec _ hne hgt with ⟨k, hk, hsnd, hget, hlt, hmax⟩
  subst hsnd
  have hj : (pickBest ((r0 :: rs).map (adjScore d seen))).2 < (r0 :: rs).length := by
    simpa using hk
  have hval : adjScore d seen ((r0 :: rs).get
      ⟨(pickBest ((r0 :: rs).map (adjScore d seen))).2, hj⟩) =
      (pickBest ((r0 :: rs).map (adjScore d seen))).1 := by
    rw [List.get_eq_getElem, ← hget, List.getD_eq_getElem _ _ hk, List.getElem_map]
  refine ⟨(pickBest ((r0 :: rs).map (adjScore d seen))).2, rfl, hj, ?_, ?_, ?_⟩
  · simp only [rerankGo]
    rw [List.getD_eq_getElem _ _ hj, List.get_eq_getElem]
  · intro r hr
    have h1 := hmax (adjScore d seen r) (List.mem_map.2 ⟨r, hr, rfl⟩)
    rw [hval]
    exact h1
  · intro i hi hij
    have h1 := hlt i hij
    have h2 : ((r0 :: rs).map (adjScore d seen)).getD i 0 =
        adjScore d seen ((r0 :: rs).get ⟨i, hi⟩) := by
      rw [List.getD_eq_getElem _ _ (by simpa using hi), List.getElem_map,
        List.get_eq_getElem]
    rw [hval, ← h2]
    exact h1

/-- Witness for C7 (amended) at two nonnegative-score candidates with
disjoint genres and the default diversity factor. -/
theorem rerank_step_spec_witness :
    ((0 : ℚ) ≤ 3 / 10 ∧
      (∀ r ∈ [({ movieId := 1, genres := "Action", combined_score := 9 / 10 } : CombinedRec),
          { movieId := 2, genres := "Comedy", combined_score := 1 / 2 }],
        0 ≤ r.combined_score)) ∧
    (∀ r ∈ [({ movieId := 1, genres := "Action", combined_score := 9 / 10 } : CombinedRec),
        { movieId := 2, genres := "Comedy", combined_score := 1 / 2 }],
      adjScore (3 / 10) ∅ r = r.combined_score +
        (3 / 10) * ((genreSetOf r.genres \ ∅).card : ℚ) /
          ((genreSetOf r.genres).card : ℚ)) := by
  have hbase : ∀ r ∈ [({ movieId := 1, genres := "Action", combined_score := 9 / 10 } :
      CombinedRec), { movieId := 2, genres := "Comedy", combined_score := 1 / 2 }],
      0 ≤ r.combined_score := by
    intro r hr
    rcases List.mem_cons.1 hr with rfl | hr
    · norm_num
    rcases List.mem_cons.1 hr with rfl | hr
    · norm_num
    · simp at hr
  exact ⟨⟨by norm_num, hbase⟩,
    (rerank_step_spec (3 / 10) ∅ _ _ 1 (by norm_num) hbase).1⟩

/-- C5: a user with fewer than 5 ratings gets the cold-start response
(`strategyUsed = "statistical"`, `isNewUser = true`) regardless of the
requested strategy string; otherwise the strings `"collaborative"`,
`"content"`, `"statistical"` dispatch to their single-source paths and
every other string (including `"hybrid"`) falls through to the hybrid
path. -/
theorem get_recommendations_routing (env : Env) (strategy : String) (top_n : Nat)
    (w1 w2 w3 : ℚ) :
    (env.ratingCount < 5 →
      Orchestrator.get_recommendations env strategy top_n w1 w2 w3 =
        .ok (Orchestrator.handle_new_user env top_n) ∧
      (Orchestrator.handle_new_user env top_n).strategy = "statistical" ∧
      (Orchestrator.handle_new_user env top_n).is_new_user = true) ∧
    (¬ env.ratingCount < 5 →
      (strategy = "collaborative" →
        Orchestrator.get_recommendations env strategy top_n w1 w2 w3 =
          .ok (Orchestrator.collaborative_only env top_n)) ∧
      (strategy = "content" →
        Orchestrator.get_recommendations env strategy top_n w1 w2 w3 =
          .ok (Orchestrator.content_only env top_n)) ∧
      (strategy = "statistical" →
        Orchestrator.get_recommendations env strategy top_n w1 w2 w3 =
          .ok (Orchestrator.statistical_only env top_n)) ∧
      (strategy ≠ "collaborative" → strategy ≠ "content" → strategy ≠ "statistical" →
        Orchestrator.get_recommendations env strategy top_n w1 w2 w3 =
          Orchestrator.hybrid_recommendations env top_n w1 w2 w3)) := by
  constructor
  · intro h
    refine ⟨?_, rfl, rfl⟩
    unfold Orchestrator.get_recommendations
    rw [if_pos (show Orchestrator.is_new_user env = true by
      simp [Orchestrator.is_new_user, h])]
  · intro h
    have hb : ¬ Orchestrator.is_new_user env = true := by
      simp [Orchestrator.is_new_user, h]
    refine ⟨?_, ?_, ?_, ?_⟩
    · intro hs
      unfold Orchestrator.get_recommendations
      rw [if_neg hb, if_pos hs]
    · intro hs
      unfold Orchestrator.get_recommendations
      rw [if_neg hb, if_neg (by rw [hs]; decide), if_pos hs]
    · intro hs
      unfold Orchestrator.get_recommendations
      rw [if_neg hb, if_neg (by rw [hs]; decide), if_neg (by rw [hs]; decide), if_pos hs]
    · intro h1 h2 h3
      unfold Orchestrator.get_recommendations
      rw [if_neg hb, if_neg h1, if_neg h2, if_neg h3]

/-- Witness for C5: Scenario C — a user with 2 ratings requesting
`strategy="hybrid"` receives the cold-start response. -/
theorem get_recommendations_routing_witness :
    coldEnv.ratingCount < 5 ∧
    (Orchestrator.get_recommendations coldEnv "hybrid" 20 (1 / 2) (3 / 10) (1 / 5) =
      .ok (Orchestrator.handle_new_user coldEnv 20) ∧
     (Orchestrator.handle_new_user coldEnv 20).strategy = "statistical" ∧
     (Orchestrator.handle_new_user coldEnv 20).is_new_user = true) := by
  refine ⟨by norm_num [coldEnv], ?_⟩
  exact (get_recommendations_routing coldEnv "hybrid" 20 (1 / 2) (3 / 10) (1 / 5)).1
    (by norm_num [coldEnv])

/-- C1 as stated is false: with the hybrid weights configured to
`[0.5, 0.2, 0.2]` (sum 0.9, outside the tolerance), a `statistical`
request for a returning user is served normally — no configuration-time
validation exists, so a recommendation request IS processed with invalid
weights; only a request reaching the hybrid merge fails, and it fails
while being served. -/
theorem weight_validation_counterexample :
    ¬ (|(1 : ℚ) / 2 + 1 / 5 + 1 / 5 - 1| < 1 / 100) ∧
    Orchestrator.get_recommendations invalidEnv "statistical" 20 (1 / 2) (1 / 5) (1 / 5) =
      .ok (Orchestrator.statistical_only invalidEnv 20) ∧
    Orchestrator.get_recommendations invalidEnv "hybrid" 20 (1 / 2) (1 / 5) (1 / 5) =
      .error "Weights must sum to 1.0" := by
  refine ⟨by norm_num [abs_lt], ?_, ?_⟩
  · unfold Orchestrator.get_recommendations
    rw [if_neg (by decide), if_neg (by decide), if_neg (by decide), if_pos rfl]
  · unfold Orchestrator.get_recommendations Orchestrator.hybrid_recommendations
    rw [if_neg (by decide), if_neg (by decide), if_neg (by decide), if_neg (by decide)]
    rw [Ranker.merge_and_rank, if_neg (by norm_num [abs_lt])]
    rfl

/-- C1 (amended: the weight-sum check is the assertion inside
`Ranker.merge_and_rank`, executed per request on the hybrid path): for a
returning user and any weights outside the tolerance, a hybrid request
fails at merge time with the assertion message while a statistical
request is served without the weights ever being validated. -/
theorem weight_validation_at_merge (env : Env) (top_n : Nat) (w1 w2 w3 : ℚ)
    (hinv : ¬ |w1 + w2 + w3 - 1| < 1 / 100) (hold : ¬ env.ratingCount < 5) :
    Orchestrator.get_recommendations env "hybrid" top_n w1 w2 w3 =
      .error "Weights must sum to 1.0" ∧
    Orchestrator.get_recommendations env "statistical" top_n w1 w2 w3 =
      .ok (Orchestrator.statistical_only env top_n) := by
  have hb : ¬ Orchestrator.is_new_user env = true := by
    simp [Orchestrator.is_new_user, hold]
  constructor
  · unfold Orchestrator.get_recommendations Orchestrator.hybrid_recommendations
    rw [if_neg hb, if_neg (by decide), if_neg (by decide), if_neg (by decide)]
    rw [Ranker.merge_and_rank, if_neg hinv]
    rfl
  · unfold Orchestrator.get_recommendations
    rw [if_neg hb, if_neg (by decide), if_neg (by decide), if_pos rfl]

/-- Witness for C1 (amended) at weights `[0.5, 0.2, 0.2]` and a user with
10 ratings. -/
theorem weight_validation_at_merge_witness :
    (¬ (|(1 : ℚ) / 2 + 1 / 5 + 1 / 5 - 1| < 1 / 100) ∧
      ¬ invalidEnv.ratingCount < 5) ∧
    (Orchestrator.get_recommendations invalidEnv "hybrid" 20 (1 / 2) (1 / 5) (1 / 5) =
      .error "Weights must sum to 1.0" ∧
     Orchestrator.get_recommendations invalidEnv "statistical" 20 (1 / 2) (1 / 5) (1 / 5) =
      .ok (Orchestrator.statistical_only invalidEnv 20)) := by
  refine ⟨⟨by norm_num [abs_lt], by norm_num [invalidEnv]⟩, ?_⟩
  exact weight_validation_at_merge invalidEnv 20 (1 / 2) (1 / 5) (1 / 5)
    (by norm_num [abs_lt]) (by norm_num [invalidEnv])

theorem sorted_head_take {α : Type} (le : α → α → Bool)
    (htot : ∀ a b, le a b = true ∨ le b a = true)
    (htrans : ∀ a b c, le a b = true → le b c = true → le a c = true)
    (l : List α) (hne : l ≠ []) :
    ∃ h t, stableSortBy le l = h :: t ∧
      (∀ n, 1 ≤ n → ((stableSortBy le l).take n).head? = some h) ∧
      h ∈ l ∧ ∀ y ∈ l, le h y = true := by
  obtain ⟨h, t, hsort⟩ : ∃ h t, stableSortBy le l = h :: t := by
    match hx : stableSortBy le l with
    | [] =>
      have hp := stableSortBy_perm le l
      rw [hx] at hp
      exact absurd (List.Perm.eq_nil hp.symm) hne
    | a :: b => exact ⟨a, b, rfl⟩
  refine ⟨h, t, hsort, ?_, ?_, stableSortBy_head_le le htot htrans l h t hsort⟩
  · intro n hn
    rw [List.head?_take, if_neg (by omega), hsort]
    rfl
  · exact (stableSortBy_perm le l).mem_iff.1 (hsort ▸ List.mem_cons_self h t)

theorem contentLe_total : ∀ a b : ContentRec,
    contentLe a b = true ∨ contentLe b a = true := by
  intro a b
  unfold contentLe
  rcases lt_trichotomy a.count b.count with h | h | h
  · exact .inr (decide_eq_true (.inl h))
  · rcases le_total a.score b.score with hs | hs
    · exact .inr (decide_eq_true (.inr ⟨h.symm, hs⟩))
    · exact .inl (decide_eq_true (.inr ⟨h, hs⟩))
  · exact .inl (decide_eq_true (.inl h))

theorem contentLe_trans : ∀ a b c : ContentRec,
    contentLe a b = true → contentLe b c = true → contentLe a c = true := by
  intro a b c hab hbc
  unfold contentLe at *
  rcases of_decide_eq_true hab with h1 | ⟨h1, h1s⟩ <;>
    rcases of_decide_eq_true hbc with h2 | ⟨h2, h2s⟩
  · exact decide_eq_true (.inl (lt_trans h2 h1))
  · exact decide_eq_true (.inl (h2 ▸ h1))
  · exact decide_eq_true (.inl (h1 ▸ h2))
  · exact decide_eq_true (.inr ⟨h1.trans h2, le_trans h2s h1s⟩)

/-- C9: each engine's `get_hero_movie` returns the rank-1 candidate of
its ranking with the source-specific confidence — `min(predicted/5, 1)`
for collaborative, `min(weightedRating/5, 1)` for statistical, the
similarity score taken directly for content — and returns `none` on an
empty source list; a null hero is not an error: the statistical route
still answers `.ok` with the (possibly null) hero in place. -/
theorem get_hero_movie_spec :
    (∀ predictions : List ScoredRec,
      (predictions = [] → CollaborativeEngine.get_hero_movie predictions = none) ∧
      (predictions ≠ [] → ∃ h,
        CollaborativeEngine.get_hero_movie predictions =
          some (.collab h (min (h.score / 5) 1)) ∧
        (∀ n, 1 ≤ n →
          (CollaborativeEngine.predict_for_user predictions n).head? = some h) ∧
        h ∈ predictions ∧ ∀ r ∈ predictions, r.score ≤ h.score)) ∧
    (∀ (movies : List MovieRow) (C : ℚ) (min_votes : Nat),
      (statResults movies C min_votes = [] →
        StatisticalEngine.get_hero_movie movies C min_votes = none) ∧
      (statResults movies C min_votes ≠ [] → ∃ h,
        StatisticalEngine.get_hero_movie movies C min_votes =
          some (.stat h (min (h.weighted_rating / 5) 1)) ∧
        (∀ n, 1 ≤ n →
          (StatisticalEngine.get_trending movies C min_votes n).head? = some h) ∧
        ∀ r ∈ statResults movies C min_votes,
          r.weighted_rating ≤ h.weighted_rating)) ∧
    (∀ aggregated : List ContentRec,
      (aggregated = [] → ContentEngine.get_hero_movie aggregated = none) ∧
      (aggregated ≠ [] → ∃ h,
        ContentEngine.get_hero_movie aggregated =
          some (.content h h.similarity_score) ∧
        ∀ n, 1 ≤ n →
          (ContentEngine.find_similar_to_user_preferences aggregated n).head? = some h)) ∧
    (∀ (env : Env) (top_n : Nat) (w1 w2 w3 : ℚ), ¬ env.ratingCount < 5 →
      Orchestrator.get_recommendations env "statistical" top_n w1 w2 w3 =
        .ok (Orchestrator.statistical_only env top_n) ∧
      (Orchestrator.statistical_only env top_n).hero =
        StatisticalEngine.get_hero_movie env.statsMovies env.globalMean 50) := by
  refine ⟨?_, ?_, ?_, ?_⟩
  · intro predictions
    refine ⟨fun h => by rw [h]; rfl, fun hne => ?_⟩
    rcases sorted_head_take scoredLe scoredLe_total scoredLe_trans predictions hne with
      ⟨h, t, hsort, hhead, hmem, hmax⟩
    refine ⟨h, ?_, ?_, hmem, fun r hr => of_decide_eq_true (hmax r hr)⟩
    · unfold CollaborativeEngine.get_hero_movie CollaborativeEngine.predict_for_user
      rw [hsort]
      rfl
    · intro n hn
      unfold CollaborativeEngine.predict_for_user
      exact hhead n hn
  · intro movies C min_votes
    refine ⟨fun h0 => ?_, fun hne => ?_⟩
    · unfold StatisticalEngine.get_hero_movie StatisticalEngine.get_trending
      rw [h0]
      rfl
    · rcases sorted_head_take statLe statLe_total statLe_trans
        (statResults movies C min_votes) hne with ⟨h, t, hsort, hhead, _, hmax⟩
      refine ⟨h, ?_, ?_, fun r hr => of_decide_eq_true (hmax r hr)⟩
      · unfold StatisticalEngine.get_hero_movie StatisticalEngine.get_trending
        rw [hsort]
        rfl
      · intro n hn
        unfold StatisticalEngine.get_trending
        exact hhead n hn
  · intro aggregated
    refine ⟨fun h => by rw [h]; rfl, fun hne => ?_⟩
    rcases sorted_head_take contentLe contentLe_total contentLe_trans aggregated hne with
      ⟨h, t, hsort, hhead, _, _⟩
    refine ⟨h, ?_, ?_⟩
    · unfold ContentEngine.get_hero_movie ContentEngine.find_similar_to_user_preferences
      rw [hsort]
      rfl
    · intro n hn
      unfold ContentEngine.find_similar_to_user_preferences
      exact hhead n hn
  · intro env top_n w1 w2 w3 h
    refine ⟨?_, rfl⟩
    unfold Orchestrator.get_recommendations
    rw [if_neg (show ¬ Orchestrator.is_new_user env = true by
        simp [Orchestrator.is_new_user, h]),
      if_neg (by decide), if_neg (by decide), if_pos rfl]

/-- Witness for C9: heroes computed from one-candidate sources, and the
empty statistical source yielding a null hero inside an `.ok` response. -/
theorem get_hero_movie_spec_witness :
    (([({ movieId := 3, score := 4 } : ScoredRec)] : List ScoredRec) ≠ []) ∧
    (∃ h, CollaborativeEngine.get_hero_movie [({ movieId := 3, score := 4 } : ScoredRec)] =
        some (.collab h (min (h.score / 5) 1)) ∧
      h ∈ [({ movieId := 3, score := 4 } : ScoredRec)]) ∧
    (¬ invalidEnv.ratingCount < 5) ∧
    Orchestrator.get_recommendations invalidEnv "statistical" 7 (1 / 2) (3 / 10) (1 / 5) =
      .ok (Orchestrator.statistical_only invalidEnv 7) := by
  refine ⟨by simp, ?_, by norm_num [invalidEnv], ?_⟩
  · rcases (get_hero_movie_spec.1 [{ movieId := 3, score := 4 }]).2 (by simp) with
      ⟨h, h1, _, h3, _⟩
    exact ⟨h, h1, h3⟩
  · exact ((get_hero_movie_spec.2.2.2 invalidEnv 7 (1 / 2) (3 / 10) (1 / 5))
      (by norm_num [invalidEnv])).1

theorem hybrid_recommendations_ok (env : Env) (top_n : Nat) (w1 w2 w3 : ℚ)
    (hw : |w1 + w2 + w3 - 1| < 1 / 100) :
    Orchestrator.hybrid_recommendations env top_n w1 w2 w3 =
      .ok { strategy := "hybrid", is_new_user := false,
            hero := CollaborativeEngine.get_hero_movie env.collabPreds,
            sections := [
              { title := "Personalized for You",
                description := "Hybrid recommendations combining all signals",
                movies := .combined ((mergeCore
                    (CollaborativeEngine.predict_for_user env.collabPreds top_n)
                    ((ContentEngine.find_similar_to_user_preferences env.contentAgg
                      top_n).map ContentRec.toScored)
                    ((StatisticalEngine.get_trending env.statsMovies env.globalMean 50
                      top_n).map SRec.toScored) w1 w2 w3).take top_n),
                source := "hybrid" },
              { title := "Similar to Your Favorites",
                description := "Based on content you enjoyed",
                movies := .contentRecs
                  ((ContentEngine.find_similar_to_user_preferences env.contentAgg
                    top_n).take top_n),
                source := "content" },
              { title := "Trending Now",
                description := "Popular and highly rated",
                movies := .statRecs
                  ((StatisticalEngine.get_trending env.statsMovies env.globalMean 50
                    top_n).take top_n),
                source := "statistical" }] } := by
  unfold Orchestrator.hybrid_recommendations
  rw [Ranker.merge_and_rank, if_pos hw]
  rfl

/-- C10: every successful hybrid response carries the collaborative
engine's hero (its top-1 prediction with collaborative confidence), not
the rank-1 entry of the merged weighted ranking; on the concrete
`hybridEnv` inputs the hero is movie 1 while the merged hybrid section
starts with movie 2, so the two genuinely differ. -/
theorem hybrid_hero_is_collaborative :
    (∀ (env : Env) (top_n : Nat) (w1 w2 w3 : ℚ) (res : RecResult),
      Orchestrator.hybrid_recommendations env top_n w1 w2 w3 = .ok res →
      res.hero = CollaborativeEngine.get_hero_movie env.collabPreds) ∧
    (Orchestrator.hybrid_recommendations hybridEnv 20 (1 / 2) (3 / 10) (1 / 5)).map
      (fun r => r.hero.map Hero.movieId) = .ok (some 1) ∧
    (Orchestrator.hybrid_recommendations hybridEnv 20 (1 / 2) (3 / 10) (1 / 5)).map
      RecResult.firstHybridMovieId = .ok (some 2) ∧
    (some (1 : Int) : Option Int) ≠ some 2 := by
  refine ⟨?_, ?_, ?_, by simp⟩
  · intro env top_n w1 w2 w3 res h
    unfold Orchestrator.hybrid_recommendations at h
    rcases hE : Ranker.merge_and_rank
        (CollaborativeEngine.predict_for_user env.collabPreds top_n)
        ((ContentEngine.find_similar_to_user_preferences env.contentAgg top_n).map
          ContentRec.toScored)
        ((StatisticalEngine.get_trending env.statsMovies env.globalMean 50 top_n).map
          SRec.toScored) w1 w2 w3 with e | v
    · rw [hE] at h
      exact absurd h (by simp [Except.map])
    · rw [hE] at h
      simp only [Except.map] at h
      injection h with h'
      rw [← h']
  · rw [hybrid_recommendations_ok hybridEnv 20 (1 / 2) (3 / 10) (1 / 5) (by norm_num)]
    norm_num [CollaborativeEngine.get_hero_movie, CollaborativeEngine.predict_for_user,
      hybridEnv, stableSortBy, insertLeBy, scoredLe, Hero.movieId, Except.map]
  · rw [hybrid_recommendations_ok hybridEnv 20 (1 / 2) (3 / 10) (1 / 5) (by norm_num)]
    norm_num [RecResult.firstHybridMovieId, Except.map, hybridEnv,
      CollaborativeEngine.predict_for_user, ContentEngine.find_similar_to_user_preferences,
      StatisticalEngine.get_trending, statResults, StatisticalEngine.weighted_rating,
      ContentRec.toScored, SRec.toScored, contentLe, statLe, scoredLe, combinedLe,
      mergeCore, Ranker.normalize_scores, minScoreOf, maxScoreOf,
      buildDict, dictInsert, allMovieIds, combineFor, contribOf, dictLookup, stableSortBy,
      insertLeBy, List.dedup, findFirst, List.filter]

/-- Witness for C10: the hybrid response on `hybridEnv` exists and its
hero is the collaborative hero. -/
theorem hybrid_hero_is_collaborative_witness :
    ∃ res, Orchestrator.hybrid_recommendations hybridEnv 20 (1 / 2) (3 / 10) (1 / 5) =
        .ok res ∧
      res.hero = CollaborativeEngine.get_hero_movie hybridEnv.collabPreds := by
  refine ⟨_, hybrid_recommendations_ok hybridEnv 20 (1 / 2) (3 / 10) (1 / 5)
    (by norm_num), ?_⟩
  exact hybrid_hero_is_collaborative.1 hybridEnv 20 (1 / 2) (3 / 10) (1 / 5) _
    (hybrid_recommendations_ok hybridEnv 20 (1 / 2) (3 / 10) (1 / 5) (by norm_num))

end FlixFlow
